import Mathlib

/-!
# pgsql: retryable transactions, error classification, backoff

A shallow embedding of `tx.go`, `error.go` and `backoff/backoff.go`.

* Go `error` values are modelled by `GoError`: a cause chain whose nodes are
  a `*pq.Error`, the sentinel `ErrAbortTx`, or any other error type, which
  may implement `SQLState()`, may be a struct with a `ConstraintName` field,
  and may unwrap to a cause.  A nil error is `none : Option GoError`.
* The collaborators of `RunInTxContext` (the context, `db.BeginTx`, `fn`,
  `tx.Commit`, `tx.Rollback`) are an `Env`: what each call answers on each
  attempt.  A run yields the list of calls made, in order, and the outcome.
* `time.Duration` and `int` are 64-bit signed integers: `Int` with explicit
  wrap-around.  The `float64` operations of `NewExponential` and its random
  source are parameters.
* The two patterns of `error.go` are data for a leftmost-first backtracking
  matcher, the semantics of Go's `regexp` on the syntax they use.
-/

set_option linter.dupNamespace false

namespace Pgsql

/-! ## Go errors -/

/-- Go error value, seen through what `errors.Is`, `errors.As` and `reflect`
can observe of it.

* `pq`: a `*pq.Error` with its `Code`, `Constraint` and `Message` fields
  (it has no `Unwrap`; its `SQLState()` returns `string(Code)`).
* `abortTx`: the package variable `ErrAbortTx` (`errors.New`, compared by
  identity).
* `leaf` / `wrap`: any other error type, without or with a cause.
  `sqlState = some s` when the type implements `SQLState() string`, which
  returns `s`; `constraintName = some c` when the value is a struct (or a
  pointer to one) with a field `ConstraintName` holding `c`.

Error types with `Is` or `As` methods of their own, and errors that unwrap
to several causes, are not modelled. -/
inductive GoError where
  | pq (Code : String) (Constraint : String) (Message : String)
  | abortTx
  | leaf (msg : String) (sqlState : Option String) (constraintName : Option String)
  | wrap (msg : String) (sqlState : Option String) (constraintName : Option String)
      (cause : GoError)
  deriving DecidableEq, Repr

/-- Fields of `pq.Error` read by this package. -/
structure PqError where
  Code : String
  Constraint : String
  Message : String
  deriving DecidableEq, Repr

/-- `ErrAbortTx` (tx.go:12). -/
def ErrAbortTx : GoError := GoError.abortTx

/-- `errors.Is(err, ErrAbortTx)`: some error of the chain is the sentinel. -/
def errorsIsAbortTx : GoError → Bool
  | .abortTx => true
  | .wrap _ _ _ c => errorsIsAbortTx c
  | .pq _ _ _ => false
  | .leaf _ _ _ => false

/-- `errors.As(err, &pqErr)` with `pqErr *pq.Error`: the first `*pq.Error`
of the chain. -/
def errorsAsPq : GoError → Option PqError
  | .pq c k m => some ⟨c, k, m⟩
  | .wrap _ _ _ c => errorsAsPq c
  | .abortTx => none
  | .leaf _ _ _ => none

/-- `errors.As(err, &sErr)` with `sErr sqlState` followed by
`sErr.SQLState()`: the state code of the first error of the chain whose type
implements `SQLState()`. -/
def errorsAsSQLState : GoError → Option String
  | .pq c _ _ => some c
  | .abortTx => none
  | .leaf _ s _ => s
  | .wrap _ (some s) _ _ => some s
  | .wrap _ none _ c => errorsAsSQLState c

/-- `IsErrorCode` (error.go:25). -/
def IsErrorCode (err : GoError) (code : String) : Bool :=
  match errorsAsSQLState err with
  | some s => s == code
  | none => false

/-- `IsSerializationFailure` (error.go:83). -/
def IsSerializationFailure (err : GoError) : Bool :=
  IsErrorCode err "40001"

/-! ## Regular expressions

`error.go` compiles two patterns with Go's `regexp` and reads the first
submatch of `FindStringSubmatch`.  The patterns are sequences of literal
characters, character classes under `*` or `+`, one capture group and `$`;
`Piece` is that fragment of the syntax, and `search` is the leftmost-first
backtracking semantics of `regexp`: the leftmost start at which the pattern
matches, greedy repetitions giving back characters only when the rest of
the pattern fails.  A string is its sequence of characters (valid UTF-8). -/

/-- One element of a pattern. -/
inductive Piece where
  | lit (c : Char)
  | star (cls : Char → Bool)
  | plus (cls : Char → Bool)
  | openGroup
  | closeGroup
  | endOfText

/-- Greedy repetition of a character class, then the continuation `k`: take
one more character of the class if the match can be completed that way,
otherwise stop here. -/
def starLoop (cls : Char → Bool) (k : List Char → Option (List Char)) :
    List Char → Option (List Char)
  | [] => k []
  | c :: cs =>
    if cls c then
      match starLoop cls k cs with
      | some r => some r
      | none => k (c :: cs)
    else k (c :: cs)

/-- Match a pattern at the start of `s`.  `opened` is the input left when the
group was opened, `cap` the text captured by the group; the result is the
capture of the first way to match, if there is one. -/
def matchPieces : List Piece → List Char → List Char → List Char → Option (List Char)
  | [], _, _, cap => some cap
  | Piece.lit c :: rest, s, opened, cap =>
    match s with
    | x :: xs => if x = c then matchPieces rest xs opened cap else none
    | [] => none
  | Piece.star cls :: rest, s, opened, cap =>
    starLoop cls (fun s' => matchPieces rest s' opened cap) s
  | Piece.plus cls :: rest, s, opened, cap =>
    match s with
    | x :: xs =>
      if cls x then starLoop cls (fun s' => matchPieces rest s' opened cap) xs else none
    | [] => none
  | Piece.openGroup :: rest, s, _, cap => matchPieces rest s s cap
  | Piece.closeGroup :: rest, s, opened, _ =>
    matchPieces rest s opened (opened.take (opened.length - s.length))
  | Piece.endOfText :: rest, s, opened, cap =>
    match s with
    | [] => matchPieces rest [] opened cap
    | _ :: _ => none

/-- Leftmost match: try every start, from the left. -/
def search (pattern : List Piece) : List Char → Option (List Char)
  | [] => matchPieces pattern [] [] []
  | c :: cs =>
    match matchPieces pattern (c :: cs) (c :: cs) [] with
    | some r => some r
    | none => search pattern cs

/-- `rs := re.FindStringSubmatch(s); if len(rs) < 2 { return "" }; return rs[1]`
for a pattern with one capture group. -/
def firstSubmatch (pattern : List Piece) (s : String) : String :=
  match search pattern s.data with
  | some cap => String.mk cap
  | none => ""

/-- The class `[^"]`. -/
def notQuote (c : Char) : Bool := c != '"'

/-- The class `[^@]`. -/
def notAt (c : Char) : Bool := c != '@'

/-- The class `\w` of `regexp`: `[0-9A-Za-z_]`. -/
def wordChar (c : Char) : Bool := c.isAlphanum || c == '_'

/-! ## error.go -/

/-- `contains` (error.go:11). -/
def contains (xs : List String) (x : String) : Bool :=
  match xs with
  | [] => false
  | p :: ps => if p = x then true else contains ps x

/-- `reLastQuoteExtractor` (error.go:123): the pattern `"([^"]*)"[^"]*$`. -/
def reLastQuoteExtractor : List Piece :=
  [Piece.lit '"', Piece.openGroup, Piece.star notQuote, Piece.closeGroup, Piece.lit '"',
    Piece.star notQuote, Piece.endOfText]

/-- `extractLastQuote` (error.go:128). -/
def extractLastQuote (s : String) : String :=
  firstSubmatch reLastQuoteExtractor s

/-- `reCRDBKeyExtractor` (error.go:136): the pattern `(\w+@\w+)[^@]*$`. -/
def reCRDBKeyExtractor : List Piece :=
  [Piece.openGroup, Piece.plus wordChar, Piece.lit '@', Piece.plus wordChar,
    Piece.closeGroup, Piece.star notAt, Piece.endOfText]

/-- `extractCRDBKey` (error.go:142). -/
def extractCRDBKey (s : String) : String :=
  firstSubmatch reCRDBKeyExtractor s

/-- `extractConstraint` (error.go:87).  The first block reads the first
`*pq.Error` of the chain; the second reads, by reflection, the field
`ConstraintName` of `err` itself. -/
def extractConstraint (err : GoError) : String :=
  match errorsAsPq err with
  | some pqErr =>
    if pqErr.Constraint ≠ "" then pqErr.Constraint
    else if pqErr.Message = "" then ""
    else if extractCRDBKey pqErr.Message ≠ "" then extractCRDBKey pqErr.Message
    else if extractLastQuote pqErr.Message ≠ "" then extractLastQuote pqErr.Message
    else ""
  | none =>
    match err with
    | GoError.leaf _ _ (some c) => c
    | GoError.wrap _ _ (some c) _ => c
    | _ => ""

/-- `IsUniqueViolation` (error.go:44); `constraint` is the variadic
argument. -/
def IsUniqueViolation (err : GoError) (constraint : List String) : Bool :=
  if !IsErrorCode err "23505" then false
  else if constraint.length = 0 then true
  else contains constraint (extractConstraint err)

/-- `IsInvalidTextRepresentation` (error.go:55). -/
def IsInvalidTextRepresentation (err : GoError) : Bool :=
  IsErrorCode err "22P02"

/-- `IsCharacterNotInRepertoire` (error.go:60). -/
def IsCharacterNotInRepertoire (err : GoError) : Bool :=
  IsErrorCode err "22021"

/-- `IsForeignKeyViolation` (error.go:65). -/
def IsForeignKeyViolation (err : GoError) (constraint : List String) : Bool :=
  if !IsErrorCode err "23503" then false
  else if constraint.length = 0 then true
  else contains constraint (extractConstraint err)

/-- `IsQueryCanceled` (error.go:77). -/
def IsQueryCanceled (err : GoError) : Bool :=
  IsErrorCode err "57014"

/-! ## tx.go -/

/-- `sql.IsolationLevel` is an `int`. -/
abbrev IsolationLevel := Int

/-- `sql.LevelDefault`. -/
def LevelDefault : IsolationLevel := 0

/-- `sql.LevelSerializable`. -/
def LevelSerializable : IsolationLevel := 6

/-- `sql.TxOptions`. -/
structure SqlTxOptions where
  Isolation : IsolationLevel
  ReadOnly : Bool
  deriving DecidableEq, Repr

/-- `TxOptions` (tx.go:20): the embedded `sql.TxOptions` and `MaxAttempts`. -/
structure TxOptions where
  TxOptions : SqlTxOptions
  MaxAttempts : Int
  deriving DecidableEq, Repr

/-- `defaultMaxAttempts` (tx.go:26). -/
def defaultMaxAttempts : Int := 10

/-- What a call of the transactional function does: return (nil or an
error), or panic. -/
inductive FnResult where
  | ret (err : Option GoError)
  | panic
  deriving DecidableEq, Repr

/-- How a run of `RunInTxContext` ends: it returns (nil or an error), or the
panic of `fn` propagates to the caller. -/
inductive Outcome where
  | returned (err : Option GoError)
  | panicked
  deriving DecidableEq, Repr

/-- The collaborators of one run, by attempt number `i` (0-based; every
attempt makes at most one call of each kind).

* `ctxDone i`: the caller's context is already canceled when attempt `i`
  calls `BeginTx`;
* `beginTx i done opts`: the error `db.BeginTx(ctx, opts)` returns on
  attempt `i` (`none`: it returns a transaction);
* `fn i`, `commit i`, `rollback i`: what `fn(tx)`, `tx.Commit()`,
  `tx.Rollback()` do on the transaction of attempt `i`. -/
structure Env where
  ctxDone : Nat → Bool
  beginTx : Nat → Bool → SqlTxOptions → Option GoError
  fn : Nat → FnResult
  commit : Nat → Option GoError
  rollback : Nat → Option GoError

/-- A call made by `RunInTxContext`, tagged with the attempt making it. -/
inductive Event where
  | beginTx (attempt : Nat) (opts : SqlTxOptions)
  | fn (attempt : Nat)
  | commit (attempt : Nat)
  | rollback (attempt : Nat)
  deriving DecidableEq, Repr

/-- Attempt an event belongs to. -/
def Event.attempt : Event → Nat
  | .beginTx i _ => i
  | .fn i => i
  | .commit i => i
  | .rollback i => i

/-- Whether the event is a call of `BeginTx`. -/
def Event.isBeginTx : Event → Bool
  | .beginTx _ _ => true
  | _ => false

/-- Whether the event is a call of the transactional function. -/
def Event.isFn : Event → Bool
  | .fn _ => true
  | _ => false

/-- Whether the event is a call of `Commit`. -/
def Event.isCommit : Event → Bool
  | .commit _ => true
  | _ => false

/-- Whether the event is a call of `Rollback`. -/
def Event.isRollback : Event → Bool
  | .rollback _ => true
  | _ => false

namespace RunInTxContext

/-- The local `option` of `RunInTxContext` after tx.go:42-59. -/
def option (opts : Option TxOptions) : TxOptions :=
  match opts with
  | none => { TxOptions := { Isolation := LevelSerializable, ReadOnly := false },
              MaxAttempts := defaultMaxAttempts }
  | some o =>
    { TxOptions :=
        { Isolation := if o.TxOptions.Isolation = LevelDefault then LevelSerializable
                       else o.TxOptions.Isolation,
          ReadOnly := o.TxOptions.ReadOnly },
      MaxAttempts := if o.MaxAttempts > 0 then o.MaxAttempts else defaultMaxAttempts }

/-- The closure `f` (tx.go:61-74) on attempt `i`: the calls it makes and what
it returns.  The deferred `tx.Rollback()` runs last on every path that got a
transaction, also when `fn` panics, and its result is discarded. -/
def f (env : Env) (o : SqlTxOptions) (i : Nat) : List Event × Outcome :=
  match env.beginTx i (env.ctxDone i) o with
  | some err => ([Event.beginTx i o], Outcome.returned (some err))
  | none =>
    match env.fn i with
    | FnResult.panic =>
      ([Event.beginTx i o, Event.fn i, Event.rollback i], Outcome.panicked)
    | FnResult.ret (some err) =>
      ([Event.beginTx i o, Event.fn i, Event.rollback i], Outcome.returned (some err))
    | FnResult.ret none =>
      ([Event.beginTx i o, Event.fn i, Event.commit i, Event.rollback i],
        Outcome.returned (env.commit i))

/-- The retry test of tx.go:81-82:
`errors.As(err, &pqErr) && (pqErr.Code == "40001")`. -/
def retryable (err : GoError) : Bool :=
  match errorsAsPq err with
  | some pqErr => pqErr.Code == "40001"
  | none => false

/-- The `for` loop of tx.go:76-87 with `n` iterations left, at counter `i`. -/
def loop (env : Env) (o : SqlTxOptions) : Nat → Nat → List Event × Outcome
  | 0, _ => ([], Outcome.returned none)
  | n + 1, i =>
    match f env o i with
    | (evs, Outcome.panicked) => (evs, Outcome.panicked)
    | (evs, Outcome.returned none) => (evs, Outcome.returned none)
    | (evs, Outcome.returned (some err)) =>
      if errorsIsAbortTx err then (evs, Outcome.returned none)
      else if !retryable err then (evs, Outcome.returned (some err))
      else ((evs ++ (loop env o n (i + 1)).1), (loop env o n (i + 1)).2)

end RunInTxContext

/-- `RunInTxContext` (tx.go:41): the calls made, in order, and the outcome. -/
def RunInTxContext (env : Env) (opts : Option TxOptions) : List Event × Outcome :=
  RunInTxContext.loop env (RunInTxContext.option opts).TxOptions
    (RunInTxContext.option opts).MaxAttempts.toNat 0

/-! ## Vocabulary of the claims -/

/-- Some error of the chain carries the state code `code`: a `*pq.Error`
with that `Code`, or an error whose `SQLState()` returns it. -/
def carriesStateCode (code : String) : GoError → Bool
  | .pq c _ _ => c == code
  | .abortTx => false
  | .leaf _ s _ => s == some code
  | .wrap _ s _ c => s == some code || carriesStateCode code c

/-- The first error of the chain that exposes a state code is a `*pq.Error`:
the state code the classifier reads is the `Code` of lib/pq. -/
def stateCodeFromPq : GoError → Bool
  | .pq _ _ _ => true
  | .abortTx => false
  | .leaf _ _ _ => false
  | .wrap _ (some _) _ _ => false
  | .wrap _ none _ c => stateCodeFromPq c

/-- A lib/pq serialization failure, bare or wrapped: the classifier
`IsSerializationFailure` holds and the state code comes from a `*pq.Error`. -/
def isPqSerializationFailure (e : GoError) : Bool :=
  IsSerializationFailure e && stateCodeFromPq e

/-- On attempt `i`, `BeginTx` returns a transaction and `fn` fails on it with
a lib/pq serialization failure. -/
def Env.fnFailsPq40001 (env : Env) (o : SqlTxOptions) (i : Nat) : Bool :=
  (env.beginTx i (env.ctxDone i) o).isNone &&
    match env.fn i with
    | FnResult.ret (some e) => isPqSerializationFailure e
    | _ => false

/-- The error `context.Canceled`. -/
def contextCanceled : GoError := GoError.leaf "context canceled" none none

/-- `errors.Is(err, context.Canceled)`. -/
def errorsIsContextCanceled : GoError → Bool
  | .leaf m s c => decide (GoError.leaf m s c = contextCanceled)
  | .wrap _ _ _ c => errorsIsContextCanceled c
  | .pq _ _ _ => false
  | .abortTx => false

/-- The error `w` is `e`, or wraps it through errors that expose no state
code of their own. -/
def wrapsPlainly (e : GoError) : GoError → Bool
  | GoError.wrap m none c cause =>
    decide (GoError.wrap m none c cause = e) || wrapsPlainly e cause
  | w => decide (w = e)

/-! ## Concrete errors and collaborators -/

/-- The lib/pq error of a serialization failure. -/
def pqSerializationFailure : GoError :=
  GoError.pq "40001" ""
    "could not serialize access due to read/write dependencies among transactions"

/-- The lib/pq error of a unique violation on `users_email_key`. -/
def pqUniqueViolation : GoError :=
  GoError.pq "23505" "users_email_key"
    "duplicate key value violates unique constraint \"users_email_key\""

/-- A serialization failure as a non-lib/pq driver reports it (the shape of
pgx's `*pgconn.PgError`): `SQLState()` returns 40001 and the struct has a
`ConstraintName` field. -/
def pgxSerializationFailure : GoError :=
  GoError.leaf "ERROR: could not serialize access due to concurrent update (SQLSTATE 40001)"
    (some "40001") (some "")

/-- The error `sql.ErrConnDone`. -/
def errConnDone : GoError := GoError.leaf "sql: connection is already closed" none none

/-- The error `sql.ErrTxDone`, which `Rollback` returns after a `Commit`. -/
def errTxDone : GoError :=
  GoError.leaf "sql: transaction has already been committed or rolled back" none none

/-- The lib/pq error of a query canceled by the user. -/
def pqQueryCanceled : GoError :=
  GoError.pq "57014" "" "canceling statement due to user request"

/-- A lib/pq unique violation that names no constraint and has no message. -/
def pqUniqueViolationUnnamed : GoError := GoError.pq "23505" "" ""

/-- A lib/pq foreign-key violation that names no constraint and has no
message. -/
def pqForeignKeyViolationUnnamed : GoError := GoError.pq "23503" "" ""

/-- A lib/pq foreign-key violation as CockroachDB reports it: no `Constraint`
field, the key in the message. -/
def pqForeignKeyViolationCRDB : GoError :=
  GoError.pq "23503" ""
    "foreign key violation: value ['b'] not found in a@primary [id] (txn=e3f9af56-5f73-4899-975c-4bb1de800402)"

/-- A unique violation as a non-lib/pq driver reports it (the shape of pgx's
`*pgconn.PgError`): `SQLState()` returns 23505 and the field `ConstraintName`
holds `users_email_key`. -/
def pgxUniqueViolation : GoError :=
  GoError.leaf "ERROR: duplicate key value violates unique constraint (SQLSTATE 23505)"
    (some "23505") (some "users_email_key")

/-- The error `fmt.Errorf("insert user: %w", err)` for `pgxUniqueViolation`:
a `*fmt.wrapError`, with no `SQLState()` and no field `ConstraintName`. -/
def wrappedPgxUniqueViolation : GoError :=
  GoError.wrap "insert user: ERROR: duplicate key value violates unique constraint (SQLSTATE 23505)"
    none none pgxUniqueViolation

/-- A foreign-key violation of the same shape, on `a_id_fkey`. -/
def pgxForeignKeyViolation : GoError :=
  GoError.leaf "ERROR: insert or update on table violates foreign key constraint (SQLSTATE 23503)"
    (some "23503") (some "a_id_fkey")

/-- The error `fmt.Errorf("insert b: %w", err)` for
`pgxForeignKeyViolation`. -/
def wrappedPgxForeignKeyViolation : GoError :=
  GoError.wrap "insert b: ERROR: insert or update on table violates foreign key constraint (SQLSTATE 23503)"
    none none pgxForeignKeyViolation

/-- Collaborators that never fail except for `fn`, which follows `fnScript`;
the context is never canceled. -/
def scriptedFn (fnScript : Nat → FnResult) : Env :=
  { ctxDone := fun _ => false
    beginTx := fun _ _ _ => none
    fn := fnScript
    commit := fun _ => none
    rollback := fun _ => none }

/-- The function always fails with a lib/pq serialization failure. -/
def alwaysSerializationFailure : Env :=
  scriptedFn (fun _ => FnResult.ret (some pqSerializationFailure))

/-- The function fails with a lib/pq serialization failure on its first `k`
calls and returns nil afterwards. -/
def failsFirst (k : Nat) : Env :=
  scriptedFn (fun i => if i < k then FnResult.ret (some pqSerializationFailure)
    else FnResult.ret none)

/-- The function returns `ErrAbortTx` on its first call. -/
def abortsAtOnce : Env :=
  scriptedFn (fun _ => FnResult.ret (some ErrAbortTx))

/-- The function fails with a unique violation on its first call. -/
def failsWithUniqueViolation : Env :=
  scriptedFn (fun _ => FnResult.ret (some pqUniqueViolation))

/-- The function fails with a pgx-shaped serialization failure on its first
call and returns nil afterwards. -/
def failsFirstWithPgx : Env :=
  scriptedFn (fun i => if i = 0 then FnResult.ret (some pgxSerializationFailure)
    else FnResult.ret none)

/-- The function fails with a pgx-shaped serialization failure on its first
`k` calls and returns nil afterwards. -/
def failsFirstPgx (k : Nat) : Env :=
  scriptedFn (fun i => if i < k then FnResult.ret (some pgxSerializationFailure)
    else FnResult.ret none)

/-- `BeginTx` fails with a lib/pq serialization failure on the first attempt
and returns a transaction afterwards; `fn` and `Commit` succeed. -/
def beginFailsOnce : Env :=
  { ctxDone := fun _ => false
    beginTx := fun i _ _ => if i = 0 then some pqSerializationFailure else none
    fn := fun _ => FnResult.ret none
    commit := fun _ => none
    rollback := fun _ => none }

/-- `BeginTx` always fails with `sql.ErrConnDone`. -/
def beginAlwaysFails : Env :=
  { ctxDone := fun _ => false
    beginTx := fun _ _ _ => some errConnDone
    fn := fun _ => FnResult.ret none
    commit := fun _ => none
    rollback := fun _ => none }

/-- Everything succeeds at once, and the `Rollback` after `Commit` reports
`sql.ErrTxDone`. -/
def commitsAtOnce : Env :=
  { ctxDone := fun _ => false
    beginTx := fun _ _ _ => none
    fn := fun _ => FnResult.ret none
    commit := fun _ => none
    rollback := fun _ => some errTxDone }

/-- The context is canceled after the first attempt; `BeginTx` does not look
at it and returns a transaction; `fn` fails with a lib/pq serialization
failure on its first call and returns nil afterwards. -/
def canceledBeginIgnores : Env :=
  { ctxDone := fun i => decide (1 ≤ i)
    beginTx := fun _ _ _ => none
    fn := fun i => if i = 0 then FnResult.ret (some pqSerializationFailure)
      else FnResult.ret none
    commit := fun _ => none
    rollback := fun _ => none }

/-- The context is canceled after the first attempt; `BeginTx` returns
`context.Canceled` once the context is canceled, as `database/sql` does;
`fn` fails with a lib/pq serialization failure on its first call. -/
def canceledBeginHonours : Env :=
  { ctxDone := fun i => decide (1 ≤ i)
    beginTx := fun _ done _ => if done then some contextCanceled else none
    fn := fun i => if i = 0 then FnResult.ret (some pqSerializationFailure)
      else FnResult.ret none
    commit := fun _ => none
    rollback := fun _ => none }

/-! ## backoff/backoff.go -/

namespace Backoff

/-- Least `int64`. -/
def minInt64 : Int := -9223372036854775808

/-- Greatest `int64`. -/
def maxInt64 : Int := 9223372036854775807

/-- The `int64` an integer wraps to: Go's signed arithmetic is modulo 2^64. -/
def wrapInt64 (x : Int) : Int :=
  (x + 9223372036854775808) % 18446744073709551616 - 9223372036854775808

/-- `Config` (backoff.go:12); a `time.Duration` is an `int64` count of
nanoseconds. -/
structure Config where
  BaseDelay : Int
  MaxDelay : Int
  deriving DecidableEq, Repr

/-- `LinearConfig` (backoff.go:25): the embedded `Config` and `Increment`. -/
structure LinearConfig where
  Config : Config
  Increment : Int
  deriving DecidableEq, Repr

/-- `time.Millisecond`. -/
def Millisecond : Int := 1000000

/-- `time.Second`. -/
def Second : Int := 1000000000

/-- `NewLinear` (backoff.go:76): the delay function it returns, applied to
`attempt`. -/
def NewLinear (config : LinearConfig) (attempt : Int) : Int :=
  let delay := wrapInt64 (config.Config.BaseDelay + wrapInt64 (attempt * config.Increment))
  if delay > config.Config.MaxDelay then config.Config.MaxDelay else delay

/-- `DefaultLinear` (backoff.go:119). -/
def DefaultLinear : Int → Int :=
  NewLinear { Config := { BaseDelay := 100 * Millisecond, MaxDelay := 5 * Second },
              Increment := 100 * Millisecond }

/-- The `float64` operations `NewExponential` uses, over a carrier `F` for
`float64`: the conversion `float64(x)` of an integer, the product,
`math.Pow`, and the conversion of a `float64` to `int64`, which always yields
some `int64` (which one is implementation-dependent when the value is out of
range).  They are a parameter: what is proved of `NewExponential` holds
whatever they compute. -/
structure Float64Ops (F : Type) where
  ofInt64 : Int → F
  mul : F → F → F
  pow : F → F → F
  toInt64 : F → Int

/-- `JitterType` (backoff.go:31) is an `int`. -/
abbrev JitterType := Int

/-- `NoJitter` (backoff.go:35). -/
def NoJitter : JitterType := 0

/-- `FullJitter` (backoff.go:37). -/
def FullJitter : JitterType := 1

/-- `EqualJitter` (backoff.go:39). -/
def EqualJitter : JitterType := 2

/-- `ExponentialConfig` (backoff.go:18): the embedded `Config`, `Multiplier`
and `JitterType`. -/
structure ExponentialConfig (F : Type) where
  Config : Config
  Multiplier : F
  JitterType : JitterType

/-- The random source: `rand.Int64N(n)` returns a value in `[0, n)` for
`0 < n`. -/
structure Rand where
  Int64N : Int → Int
  inRange : ∀ n : Int, 0 < n → 0 ≤ Int64N n ∧ Int64N n < n

namespace NewExponential

/-- The local `baseDelay` after backoff.go:45-48: the scaled delay, capped at
`MaxDelay`. -/
def baseDelay {F : Type} (fl : Float64Ops F) (config : ExponentialConfig F)
    (attempt : Int) : Int :=
  let baseDelay := fl.toInt64
    (fl.mul (fl.ofInt64 config.Config.BaseDelay) (fl.pow config.Multiplier (fl.ofInt64 attempt)))
  if baseDelay > config.Config.MaxDelay then config.Config.MaxDelay else baseDelay

/-- The `switch` of backoff.go:50-69 on the capped `baseDelay`; `/` on
integers truncates toward zero. -/
def delay (jitterType : JitterType) (rand : Rand) (baseDelay : Int) : Int :=
  if jitterType = FullJitter then
    if baseDelay > 0 then rand.Int64N baseDelay else baseDelay
  else if jitterType = EqualJitter then
    let half := Int.tdiv baseDelay 2
    if half > 0 then wrapInt64 (half + rand.Int64N half) else baseDelay
  else baseDelay

end NewExponential

/-- `NewExponential` (backoff.go:43): the delay function it returns, applied
to `attempt`. -/
def NewExponential {F : Type} (fl : Float64Ops F) (rand : Rand) (config : ExponentialConfig F)
    (attempt : Int) : Int :=
  NewExponential.delay config.JitterType rand (NewExponential.baseDelay fl config attempt)

/-- The `float64` operations on integers of magnitude below 2^53 with
non-negative integer exponents, where `float64` arithmetic is exact. -/
def exactFloat64 : Float64Ops Int :=
  { ofInt64 := fun x => x
    mul := fun x y => x * y
    pow := fun x y => x ^ y.toNat
    toInt64 := fun x => x }

/-- The `float64` operations as an amd64 build computes them, on the values
where `float64` arithmetic is exact (integers `m * 2^e` with `m` below 2^53,
non-negative integer exponents): the conversion to `int64` of a value
outside the `int64` range yields the least `int64`. -/
def amd64Float64 : Float64Ops Int :=
  { ofInt64 := fun x => x
    mul := fun x y => x * y
    pow := fun x y => x ^ y.toNat
    toInt64 := fun x => if minInt64 ≤ x ∧ x ≤ maxInt64 then x else minInt64 }

/-- The configuration of `DefaultExponential` (backoff.go:86). -/
def defaultExponentialConfig : ExponentialConfig Int :=
  { Config := { BaseDelay := 100 * Millisecond, MaxDelay := 5 * Second }
    Multiplier := 2
    JitterType := NoJitter }

/-- A random source that always returns 0. -/
def randZero : Rand :=
  { Int64N := fun _ => 0
    inRange := fun _ h => ⟨Int.le_refl 0, h⟩ }

/-- A random source that always returns the greatest value, `n - 1`. -/
def randMax : Rand :=
  { Int64N := fun n => n - 1
    inRange := fun n h => ⟨by show 0 ≤ n - 1; omega, by show n - 1 < n; omega⟩ }

/-- The configuration of `DefaultExponentialWithEqualJitter`
(backoff.go:108). -/
def defaultEqualJitterConfig : ExponentialConfig Int :=
  { Config := { BaseDelay := 100 * Millisecond, MaxDelay := 5 * Second }
    Multiplier := 2
    JitterType := EqualJitter }

/-- Full jitter on a base delay of zero. -/
def zeroBaseFullJitterConfig : ExponentialConfig Int :=
  { Config := { BaseDelay := 0, MaxDelay := 5 * Second }
    Multiplier := 2
    JitterType := FullJitter }

/-- Equal jitter on a base delay of one nanosecond. -/
def oneNanosecondEqualJitterConfig : ExponentialConfig Int :=
  { Config := { BaseDelay := 1, MaxDelay := 5 * Second }
    Multiplier := 2
    JitterType := EqualJitter }

end Backoff

/-! ## Structure of a run -/

namespace RunInTxContext

theorem f_attempt (env : Env) (o : SqlTxOptions) (i : Nat) (ev : Event)
    (h : ev ∈ (f env o i).1) : ev.attempt = i := by
  unfold f at h
  split at h
  · simp at h; subst h; rfl
  · split at h <;> simp at h <;> casesm* _ ∨ _ <;> subst_vars <;> rfl

theorem loop_panicked (env : Env) (o : SqlTxOptions) (n i : Nat)
    (h : (f env o i).2 = Outcome.panicked) :
    loop env o (n + 1) i = ((f env o i).1, Outcome.panicked) := by
  rcases hf : f env o i with ⟨evs, r⟩
  rw [hf] at h
  simp only at h
  subst h
  simp [loop, hf]

theorem loop_nil (env : Env) (o : SqlTxOptions) (n i : Nat)
    (h : (f env o i).2 = Outcome.returned none) :
    loop env o (n + 1) i = ((f env o i).1, Outcome.returned none) := by
  rcases hf : f env o i with ⟨evs, r⟩
  rw [hf] at h
  simp only at h
  subst h
  simp [loop, hf]

theorem loop_abort (env : Env) (o : SqlTxOptions) (n i : Nat) (e : GoError)
    (h : (f env o i).2 = Outcome.returned (some e)) (ha : errorsIsAbortTx e = true) :
    loop env o (n + 1) i = ((f env o i).1, Outcome.returned none) := by
  rcases hf : f env o i with ⟨evs, r⟩
  rw [hf] at h
  simp only at h
  subst h
  simp [loop, hf, ha]

theorem loop_fatal (env : Env) (o : SqlTxOptions) (n i : Nat) (e : GoError)
    (h : (f env o i).2 = Outcome.returned (some e)) (ha : errorsIsAbortTx e = false)
    (hr : retryable e = false) :
    loop env o (n + 1) i = ((f env o i).1, Outcome.returned (some e)) := by
  rcases hf : f env o i with ⟨evs, r⟩
  rw [hf] at h
  simp only at h
  subst h
  simp [loop, hf, ha, hr]

theorem loop_retry (env : Env) (o : SqlTxOptions) (n i : Nat) (e : GoError)
    (h : (f env o i).2 = Outcome.returned (some e)) (ha : errorsIsAbortTx e = false)
    (hr : retryable e = true) :
    loop env o (n + 1) i
      = ((f env o i).1 ++ (loop env o n (i + 1)).1, (loop env o n (i + 1)).2) := by
  rcases hf : f env o i with ⟨evs, r⟩
  rw [hf] at h
  simp only at h
  subst h
  simp [loop, hf, ha, hr]

/-- One iteration either ends the loop with the calls of `f`, or is followed
by the rest of the loop. -/
theorem loop_succ_cases (env : Env) (o : SqlTxOptions) (n i : Nat) :
    (loop env o (n + 1) i).1 = (f env o i).1 ∨
    loop env o (n + 1) i
      = ((f env o i).1 ++ (loop env o n (i + 1)).1, (loop env o n (i + 1)).2) := by
  rcases hf : (f env o i).2 with e | _
  · rcases e with _ | e
    · left; rw [loop_nil env o n i hf]
    · cases ha : errorsIsAbortTx e
      · cases hr : retryable e
        · left; rw [loop_fatal env o n i e hf ha hr]
        · right; exact loop_retry env o n i e hf ha hr
      · left; rw [loop_abort env o n i e hf ha]
  · left; rw [loop_panicked env o n i hf]

theorem loop_attempt_range (env : Env) (o : SqlTxOptions) (n : Nat) :
    ∀ (i : Nat) (ev : Event), ev ∈ (loop env o n i).1 → i ≤ ev.attempt ∧ ev.attempt < i + n := by
  induction n with
  | zero => intro i ev h; simp [loop] at h
  | succ n ih =>
    intro i ev h
    rcases loop_succ_cases env o n i with hc | hc
    · rw [hc] at h
      have := f_attempt env o i ev h
      omega
    · rw [hc] at h
      simp only [List.mem_append] at h
      rcases h with h | h
      · have := f_attempt env o i ev h
        omega
      · have := ih (i + 1) ev h
        omega

/-- The calls of attempt `i` come first; whatever follows belongs to later
attempts. -/
theorem loop_succ_trace (env : Env) (o : SqlTxOptions) (n i : Nat) :
    ∃ post, (loop env o (n + 1) i).1 = (f env o i).1 ++ post ∧
      ∀ ev ∈ post, i < ev.attempt := by
  rcases loop_succ_cases env o n i with hc | hc
  · exact ⟨[], by simp [hc], by simp⟩
  · refine ⟨(loop env o n (i + 1)).1, by rw [hc], ?_⟩
    intro ev h
    have := loop_attempt_range env o n (i + 1) ev h
    omega

/-- If a call of attempt `j` occurs in the loop, the loop reaches counter `j`
with iterations left; before that it only made calls of earlier attempts. -/
theorem loop_reach (env : Env) (o : SqlTxOptions) (j : Nat) (n : Nat) :
    ∀ (i : Nat) (ev : Event), ev ∈ (loop env o n i).1 → ev.attempt = j →
      ∃ pre m, j + (m + 1) = i + n ∧
        loop env o n i = (pre ++ (loop env o (m + 1) j).1, (loop env o (m + 1) j).2) ∧
        ∀ e ∈ pre, i ≤ e.attempt ∧ e.attempt < j := by
  induction n with
  | zero => intro i ev h; simp [loop] at h
  | succ n ih =>
    intro i ev h hj
    by_cases hij : j = i
    · subst hij
      exact ⟨[], n, rfl, by simp, by simp⟩
    · rcases loop_succ_cases env o n i with hc | hc
      · rw [hc] at h
        have := f_attempt env o i ev h
        omega
      · have h2 := h
        rw [hc] at h2
        simp only [List.mem_append] at h2
        rcases h2 with h2 | h2
        · have := f_attempt env o i ev h2
          omega
        · obtain ⟨pre, m, hm, heq, hpre⟩ := ih (i + 1) ev h2 hj
          refine ⟨(f env o i).1 ++ pre, m, by omega, ?_, ?_⟩
          · rw [hc, heq]; simp
          · intro e he
            simp only [List.mem_append] at he
            rcases he with he | he
            · have := f_attempt env o i e he
              have := loop_attempt_range env o (n + 1) i ev h
              omega
            · have := hpre e he
              omega

theorem f_of_begin_err (env : Env) (o : SqlTxOptions) (i : Nat) (e : GoError)
    (hb : env.beginTx i (env.ctxDone i) o = some e) :
    f env o i = ([Event.beginTx i o], Outcome.returned (some e)) := by
  simp [f, hb]

theorem f_of_fn_err (env : Env) (o : SqlTxOptions) (i : Nat) (e : GoError)
    (hb : env.beginTx i (env.ctxDone i) o = none) (hf : env.fn i = FnResult.ret (some e)) :
    f env o i = ([Event.beginTx i o, Event.fn i, Event.rollback i],
      Outcome.returned (some e)) := by
  simp [f, hb, hf]

theorem f_of_fn_nil (env : Env) (o : SqlTxOptions) (i : Nat)
    (hb : env.beginTx i (env.ctxDone i) o = none) (hf : env.fn i = FnResult.ret none) :
    f env o i = ([Event.beginTx i o, Event.fn i, Event.commit i, Event.rollback i],
      Outcome.returned (env.commit i)) := by
  simp [f, hb, hf]

theorem f_of_fn_panic (env : Env) (o : SqlTxOptions) (i : Nat)
    (hb : env.beginTx i (env.ctxDone i) o = none) (hf : env.fn i = FnResult.panic) :
    f env o i = ([Event.beginTx i o, Event.fn i, Event.rollback i], Outcome.panicked) := by
  simp [f, hb, hf]

/-- A chain has one innermost error: when it is a `*pq.Error`, it is not the
sentinel. -/
theorem not_abort_of_asPq (e : GoError) (p : PqError) (h : errorsAsPq e = some p) :
    errorsIsAbortTx e = false := by
  induction e with
  | pq c k m => rfl
  | abortTx => simp [errorsAsPq] at h
  | leaf m s c => rfl
  | wrap m s c cause ih =>
    simp only [errorsAsPq] at h
    simpa [errorsIsAbortTx] using ih h

theorem not_abort_of_retryable (e : GoError) (h : retryable e = true) :
    errorsIsAbortTx e = false := by
  unfold retryable at h
  split at h
  · next p hp => exact not_abort_of_asPq e p hp
  · simp at h

/-- When the state code comes from a `*pq.Error`, the retry test of the
executor and the classifier agree. -/
theorem retryable_eq_of_stateCodeFromPq (e : GoError) (h : stateCodeFromPq e = true) :
    retryable e = IsSerializationFailure e := by
  unfold retryable IsSerializationFailure IsErrorCode
  induction e with
  | pq c k m => simp [errorsAsPq, errorsAsSQLState]
  | abortTx => simp [stateCodeFromPq] at h
  | leaf m s c => simp [stateCodeFromPq] at h
  | wrap m s c cause ih =>
    cases s with
    | none =>
      simp only [stateCodeFromPq] at h
      simpa [errorsAsPq, errorsAsSQLState] using ih h
    | some s => simp [stateCodeFromPq] at h

theorem retryable_of_isPqSerializationFailure (e : GoError)
    (h : isPqSerializationFailure e = true) : retryable e = true := by
  unfold isPqSerializationFailure at h
  simp only [Bool.and_eq_true] at h
  rw [retryable_eq_of_stateCodeFromPq e h.2, h.1]

theorem fnFailsPq40001_iff (env : Env) (o : SqlTxOptions) (i : Nat) :
    env.fnFailsPq40001 o i = true ↔
      env.beginTx i (env.ctxDone i) o = none ∧
        ∃ e, env.fn i = FnResult.ret (some e) ∧ isPqSerializationFailure e = true := by
  unfold Env.fnFailsPq40001
  constructor
  · intro h
    simp only [Bool.and_eq_true, Option.isNone_iff_eq_none] at h
    refine ⟨h.1, ?_⟩
    have h2 := h.2
    split at h2
    · next e he => exact ⟨e, he, h2⟩
    · simp at h2
  · rintro ⟨hb, e, he, hr⟩
    simp [hb, he, hr]

/-- An attempt whose `fn` fails with a lib/pq serialization failure makes the
calls `BeginTx`, `fn`, `Rollback` and the loop goes on. -/
theorem loop_of_fnFailsPq40001 (env : Env) (o : SqlTxOptions) (n i : Nat)
    (h : env.fnFailsPq40001 o i = true) :
    loop env o (n + 1) i
      = ([Event.beginTx i o, Event.fn i, Event.rollback i] ++ (loop env o n (i + 1)).1,
          (loop env o n (i + 1)).2) := by
  obtain ⟨hb, e, he, hs⟩ := (fnFailsPq40001_iff env o i).1 h
  have hr := retryable_of_isPqSerializationFailure e hs
  have hf := f_of_fn_err env o i e hb he
  have := loop_retry env o n i e (by rw [hf]) (not_abort_of_retryable e hr) hr
  rw [this, hf]

/-- After `k` attempts that all fail with a lib/pq serialization failure, the
loop stands at counter `i + k` having called `fn` `k` times and `Commit`
never. -/
theorem loop_retry_prefix (env : Env) (o : SqlTxOptions) (k : Nat) :
    ∀ (n i : Nat), (∀ t, t < k → env.fnFailsPq40001 o (i + t) = true) →
      ∃ pre, loop env o (k + n) i
          = (pre ++ (loop env o n (i + k)).1, (loop env o n (i + k)).2) ∧
        (pre.filter Event.isFn).length = k ∧ (pre.filter Event.isCommit).length = 0 := by
  induction k with
  | zero => intro n i _; exact ⟨[], by simp, rfl, rfl⟩
  | succ k ih =>
    intro n i h
    obtain ⟨pre, heq, hfn, hc⟩ := ih n (i + 1) (fun t ht => by
      have := h (t + 1) (by omega)
      rwa [show i + (t + 1) = i + 1 + t by omega] at this)
    have h0 := h 0 (by omega)
    rw [Nat.add_zero] at h0
    refine ⟨[Event.beginTx i o, Event.fn i, Event.rollback i] ++ pre, ?_, ?_, ?_⟩
    · rw [show k + 1 + n = (k + n) + 1 by omega, loop_of_fnFailsPq40001 env o (k + n) i h0,
        heq, show i + 1 + k = i + (k + 1) by omega]
      simp
    · simp [List.filter_cons, Event.isFn, hfn]
    · simp [List.filter_cons, Event.isCommit, hc]

/-- Whatever attempt `j` the loop calls something on, it reaches counter `j`,
and the call is one of those `f` makes on attempt `j`. -/
theorem loop_reach_f (env : Env) (o : SqlTxOptions) (n i : Nat) (ev : Event)
    (h : ev ∈ (loop env o n i).1) :
    ∃ pre m, ev.attempt + (m + 1) = i + n ∧
      loop env o n i = (pre ++ (loop env o (m + 1) ev.attempt).1,
        (loop env o (m + 1) ev.attempt).2) ∧
      (∀ e ∈ pre, e.attempt < ev.attempt) ∧ ev ∈ (f env o ev.attempt).1 := by
  obtain ⟨pre, m, hm, heq, hpre⟩ := loop_reach env o ev.attempt n i ev h rfl
  refine ⟨pre, m, hm, heq, fun e he => (hpre e he).2, ?_⟩
  rw [heq] at h
  simp only [List.mem_append] at h
  rcases h with h | h
  · have := (hpre ev h).2
    omega
  · obtain ⟨post, hpost, hlt⟩ := loop_succ_trace env o m ev.attempt
    rw [hpost] at h
    simp only [List.mem_append] at h
    rcases h with h | h
    · exact h
    · have := hlt ev h
      omega

theorem begin_ok_of_fn_mem (env : Env) (o : SqlTxOptions) (j : Nat)
    (h : Event.fn j ∈ (f env o j).1) : env.beginTx j (env.ctxDone j) o = none := by
  cases hb : env.beginTx j (env.ctxDone j) o with
  | none => rfl
  | some e =>
    rw [f_of_begin_err env o j e hb] at h
    simp at h

/-- When the loop calls `fn` on attempt `j`, it has reached counter `j` and
`BeginTx` has returned a transaction there. -/
theorem loop_reach_fn (env : Env) (o : SqlTxOptions) (n i j : Nat)
    (h : Event.fn j ∈ (loop env o n i).1) :
    ∃ pre m, j + (m + 1) = i + n ∧
      loop env o n i = (pre ++ (loop env o (m + 1) j).1, (loop env o (m + 1) j).2) ∧
      (∀ e ∈ pre, e.attempt < j) ∧ env.beginTx j (env.ctxDone j) o = none := by
  obtain ⟨pre, m, hm, heq, hpre, hf⟩ := loop_reach_f env o n i (Event.fn j) h
  exact ⟨pre, m, hm, heq, hpre, begin_ok_of_fn_mem env o j hf⟩

theorem not_retryable_of_not_carries (e : GoError)
    (h : carriesStateCode "40001" e = false) : retryable e = false := by
  unfold retryable
  induction e with
  | pq c k m => simpa [errorsAsPq, carriesStateCode] using h
  | abortTx => simp [errorsAsPq]
  | leaf m s c => simp [errorsAsPq]
  | wrap m s c cause ih =>
    simp only [carriesStateCode, Bool.or_eq_false_iff] at h
    simpa [errorsAsPq] using ih h.2

theorem f_head (env : Env) (o : SqlTxOptions) (i : Nat) :
    ∃ rest, (f env o i).1 = Event.beginTx i o :: rest := by
  unfold f
  split
  · exact ⟨_, rfl⟩
  · split <;> exact ⟨_, rfl⟩

/-- The calls of attempt `j` are followed by nothing, or by the `BeginTx` of
attempt `j + 1` and calls of later attempts only. -/
theorem loop_succ_shape (env : Env) (o : SqlTxOptions) (m j : Nat) :
    ∃ post, (loop env o (m + 1) j).1 = (f env o j).1 ++ post ∧
      (∀ ev ∈ post, j < ev.attempt) ∧
      (post = [] ∨ ∃ rest, post = Event.beginTx (j + 1) o :: rest) := by
  rcases loop_succ_cases env o m j with hc | hc
  · exact ⟨[], by simp [hc], by simp, Or.inl rfl⟩
  · refine ⟨(loop env o m (j + 1)).1, by rw [hc], ?_, ?_⟩
    · intro ev h
      have := loop_attempt_range env o m (j + 1) ev h
      omega
    · cases m with
      | zero => left; rfl
      | succ m =>
        right
        obtain ⟨post, hpost, _⟩ := loop_succ_trace env o m (j + 1)
        obtain ⟨rest, hrest⟩ := f_head env o (j + 1)
        exact ⟨rest ++ post, by rw [hpost, hrest]; rfl⟩

theorem not_mem_of_attempt_ne (l : List Event) (j : Nat) (ev : Event)
    (h : ∀ e ∈ l, e.attempt ≠ j) (hev : ev.attempt = j) : ev ∉ l :=
  fun hmem => h ev hmem hev

theorem option_maxAttempts_pos (opts : Option TxOptions) :
    0 < (option opts).MaxAttempts := by
  unfold option
  split
  · decide
  · simp only
    split
    · assumption
    · decide

theorem opts_of_begin_mem (env : Env) (o o' : SqlTxOptions) (i j : Nat)
    (h : Event.beginTx j o' ∈ (f env o i).1) : o' = o := by
  unfold f at h
  split at h
  · simp at h; exact h.2
  · split at h <;> simp at h <;> exact h.2

/-- With an iteration left, the loop calls `BeginTx` for its counter. -/
theorem begin_mem_loop_succ (env : Env) (o : SqlTxOptions) (m i : Nat) :
    Event.beginTx i o ∈ (loop env o (m + 1) i).1 := by
  obtain ⟨post, hpost, _⟩ := loop_succ_trace env o m i
  obtain ⟨rest, hrest⟩ := f_head env o i
  rw [hpost, hrest]
  simp

theorem not_special_of_contextCanceled (e : GoError) (h : errorsIsContextCanceled e = true) :
    errorsIsAbortTx e = false ∧ retryable e = false := by
  unfold retryable
  induction e with
  | pq c k m => simp [errorsIsContextCanceled] at h
  | abortTx => simp [errorsIsContextCanceled] at h
  | leaf m s c => simp [errorsIsAbortTx, errorsAsPq]
  | wrap m s c cause ih =>
    simp only [errorsIsContextCanceled] at h
    simpa [errorsIsAbortTx, errorsAsPq] using ih h

end RunInTxContext

/-! ## Claims about `RunInTxContext` -/

/-- C1 (behaviour of the code): when every attempt gets a transaction and `fn`
fails on it with a lib/pq serialization failure (code 40001),
`RunInTxContext` calls `fn` exactly `MaxAttempts` times and then returns nil
(tx.go:87), not the last error. -/
theorem RunInTxContext_exhausted_returns_nil (env : Env) (opts : Option TxOptions)
    (hfail : ∀ i : Nat, (i : Int) < (RunInTxContext.option opts).MaxAttempts →
      env.fnFailsPq40001 (RunInTxContext.option opts).TxOptions i = true) :
    (RunInTxContext env opts).2 = Outcome.returned none ∧
    ((RunInTxContext env opts).1.filter Event.isFn).length
      = (RunInTxContext.option opts).MaxAttempts.toNat := by
  obtain ⟨pre, heq, hfn, _⟩ := RunInTxContext.loop_retry_prefix env
    (RunInTxContext.option opts).TxOptions (RunInTxContext.option opts).MaxAttempts.toNat 0 0
    (fun t ht => by
      rw [Nat.zero_add]
      exact hfail t (by omega))
  unfold RunInTxContext
  rw [Nat.add_zero] at heq
  rw [heq]
  simp [RunInTxContext.loop, hfn]

/-- C1 at `MaxAttempts = 3`: three calls of `fn`, each failing with a
serialization failure, and the result is nil. -/
theorem RunInTxContext_exhausted_returns_nil_witness :
    (RunInTxContext alwaysSerializationFailure
        (some { TxOptions := { Isolation := 0, ReadOnly := false }, MaxAttempts := 3 })).2
      = Outcome.returned none ∧
    ((RunInTxContext alwaysSerializationFailure
        (some { TxOptions := { Isolation := 0, ReadOnly := false }, MaxAttempts := 3 })).1.filter
      Event.isFn).length = 3 :=
  RunInTxContext_exhausted_returns_nil alwaysSerializationFailure
    (some { TxOptions := { Isolation := 0, ReadOnly := false }, MaxAttempts := 3 })
    (fun _ _ => rfl)

/-- C2 fails: `fn` fails on its first two calls with a serialization failure
as a non-lib/pq driver reports it (`SQLState()` returns 40001) and would
return nil on the third (`MaxAttempts = 5`); `RunInTxContext` calls `fn` once,
never calls `Commit`, and returns the error. -/
theorem RunInTxContext_pgx_failure_ends_run :
    IsSerializationFailure pgxSerializationFailure = true ∧
    (failsFirstPgx 2).fn 0 = FnResult.ret (some pgxSerializationFailure) ∧
    (failsFirstPgx 2).fn 1 = FnResult.ret (some pgxSerializationFailure) ∧
    (failsFirstPgx 2).fn 2 = FnResult.ret none ∧
    (RunInTxContext (failsFirstPgx 2)
        (some { TxOptions := { Isolation := 0, ReadOnly := false }, MaxAttempts := 5 })).2
      = Outcome.returned (some pgxSerializationFailure) ∧
    ((RunInTxContext (failsFirstPgx 2)
        (some { TxOptions := { Isolation := 0, ReadOnly := false }, MaxAttempts := 5 })).1.filter
      Event.isFn).length = 1 ∧
    ((RunInTxContext (failsFirstPgx 2)
        (some { TxOptions := { Isolation := 0, ReadOnly := false }, MaxAttempts := 5 })).1.filter
      Event.isCommit).length = 0 := by
  decide

/-- C2 as amended: the caller passes `MaxAttempts` and `k < MaxAttempts`; on
the attempts `0..k` `BeginTx`, given the resolved options, returns a
transaction; `fn` fails on its first `k` calls with a serialization failure
reported by lib/pq (`IsSerializationFailure` holds and the state code is that
of a `*pq.Error`) and returns nil on call `k + 1`; that `Commit` succeeds.
Then `RunInTxContext` returns nil, having called `fn` exactly `k + 1` times
and `Commit` exactly once, on the transaction of the last attempt. -/
theorem RunInTxContext_retries_until_success (env : Env) (o : TxOptions) (k : Nat)
    (hk : (k : Int) < o.MaxAttempts)
    (hfail : ∀ i : Nat, i < k →
      env.fnFailsPq40001
        { Isolation := if o.TxOptions.Isolation = LevelDefault then LevelSerializable
                       else o.TxOptions.Isolation,
          ReadOnly := o.TxOptions.ReadOnly } i = true)
    (hbegin : env.beginTx k (env.ctxDone k)
        { Isolation := if o.TxOptions.Isolation = LevelDefault then LevelSerializable
                       else o.TxOptions.Isolation,
          ReadOnly := o.TxOptions.ReadOnly } = none)
    (hfn : env.fn k = FnResult.ret none)
    (hcommit : env.commit k = none) :
    (RunInTxContext env (some o)).2 = Outcome.returned none ∧
    ((RunInTxContext env (some o)).1.filter Event.isFn).length = k + 1 ∧
    ((RunInTxContext env (some o)).1.filter Event.isCommit).length = 1 ∧
    Event.commit k ∈ (RunInTxContext env (some o)).1 := by
  have hpos : o.MaxAttempts > 0 := by omega
  have hmax : (RunInTxContext.option (some o)).MaxAttempts = o.MaxAttempts := by
    simp [RunInTxContext.option, hpos]
  have hopt : (RunInTxContext.option (some o)).TxOptions
      = { Isolation := if o.TxOptions.Isolation = LevelDefault then LevelSerializable
                       else o.TxOptions.Isolation,
          ReadOnly := o.TxOptions.ReadOnly } := rfl
  obtain ⟨m, hm⟩ : ∃ m, (RunInTxContext.option (some o)).MaxAttempts.toNat = k + (m + 1) :=
    ⟨o.MaxAttempts.toNat - k - 1, by rw [hmax]; omega⟩
  rw [← hopt] at hfail hbegin
  obtain ⟨pre, heq, hcf, hcc⟩ := RunInTxContext.loop_retry_prefix env
    (RunInTxContext.option (some o)).TxOptions k (m + 1) 0
    (fun t ht => by
      rw [Nat.zero_add]
      exact hfail t ht)
  have hf := RunInTxContext.f_of_fn_nil env (RunInTxContext.option (some o)).TxOptions k
    hbegin hfn
  have hl := RunInTxContext.loop_nil env (RunInTxContext.option (some o)).TxOptions m k
    (by rw [hf, hcommit])
  rw [Nat.zero_add, hl, hf] at heq
  unfold RunInTxContext
  rw [hm, heq]
  simp [List.filter_cons, Event.isFn, Event.isCommit, hcf, hcc]

/-- C2 as amended, at `k = 2`, `MaxAttempts = 5`, with lib/pq serialization
failures: three calls of `fn`, one `Commit`, result nil. -/
theorem RunInTxContext_retries_until_success_witness :
    (RunInTxContext (failsFirst 2)
        (some { TxOptions := { Isolation := 0, ReadOnly := false }, MaxAttempts := 5 })).2
      = Outcome.returned none ∧
    ((RunInTxContext (failsFirst 2)
        (some { TxOptions := { Isolation := 0, ReadOnly := false }, MaxAttempts := 5 })).1.filter
      Event.isFn).length = 2 + 1 ∧
    ((RunInTxContext (failsFirst 2)
        (some { TxOptions := { Isolation := 0, ReadOnly := false }, MaxAttempts := 5 })).1.filter
      Event.isCommit).length = 1 ∧
    Event.commit 2 ∈ (RunInTxContext (failsFirst 2)
        (some { TxOptions := { Isolation := 0, ReadOnly := false }, MaxAttempts := 5 })).1 :=
  RunInTxContext_retries_until_success (failsFirst 2)
    { TxOptions := { Isolation := 0, ReadOnly := false }, MaxAttempts := 5 } 2
    (by decide)
    (fun i hi => by
      have : i = 0 ∨ i = 1 := by omega
      rcases this with rfl | rfl <;> rfl)
    rfl rfl rfl

/-- C3: when `fn`, called on attempt `j`, returns `ErrAbortTx` (bare or
wrapped), `RunInTxContext` returns nil; the calls of that attempt are
`BeginTx`, `fn`, `Rollback`, they end the run, and `Commit` is never called on
that transaction. -/
theorem RunInTxContext_abort_returns_nil (env : Env) (opts : Option TxOptions) (j : Nat)
    (e : GoError)
    (hcall : Event.fn j ∈ (RunInTxContext env opts).1)
    (hfn : env.fn j = FnResult.ret (some e))
    (habort : errorsIsAbortTx e = true) :
    (RunInTxContext env opts).2 = Outcome.returned none ∧
    (∃ pre, (RunInTxContext env opts).1
        = pre ++ [Event.beginTx j (RunInTxContext.option opts).TxOptions, Event.fn j,
            Event.rollback j] ∧
      ∀ ev ∈ pre, ev.attempt < j) ∧
    Event.commit j ∉ (RunInTxContext env opts).1 ∧
    ∀ ev ∈ (RunInTxContext env opts).1, ev.attempt ≤ j := by
  unfold RunInTxContext at hcall ⊢
  obtain ⟨pre, m, _, heq, hpre, hb⟩ := RunInTxContext.loop_reach_fn env _ _ 0 j hcall
  have hf := RunInTxContext.f_of_fn_err env (RunInTxContext.option opts).TxOptions j e hb hfn
  have hl := RunInTxContext.loop_abort env (RunInTxContext.option opts).TxOptions m j e
    (by rw [hf]) habort
  rw [hl, hf] at heq
  rw [heq]
  refine ⟨rfl, ⟨pre, rfl, hpre⟩, ?_, ?_⟩
  · intro hmem
    simp only [List.mem_append, List.mem_cons, List.mem_singleton, List.not_mem_nil,
      reduceCtorEq, or_false, or_self] at hmem
    have := hpre _ hmem
    simp [Event.attempt] at this
  · intro ev hev
    simp only [List.mem_append, List.mem_cons, List.mem_singleton, List.not_mem_nil,
      or_false] at hev
    rcases hev with hev | hev | hev | hev
    · exact Nat.le_of_lt (hpre ev hev)
    · subst hev; exact Nat.le_refl _
    · subst hev; exact Nat.le_refl _
    · subst hev; exact Nat.le_refl _

/-- C3 with `fn` returning `ErrAbortTx` on the first attempt and
`MaxAttempts = 5`. -/
theorem RunInTxContext_abort_returns_nil_witness :
    (RunInTxContext abortsAtOnce
        (some { TxOptions := { Isolation := 0, ReadOnly := false }, MaxAttempts := 5 })).2
      = Outcome.returned none ∧
    Event.commit 0 ∉ (RunInTxContext abortsAtOnce
        (some { TxOptions := { Isolation := 0, ReadOnly := false }, MaxAttempts := 5 })).1 :=
  have h := RunInTxContext_abort_returns_nil abortsAtOnce
    (some { TxOptions := { Isolation := 0, ReadOnly := false }, MaxAttempts := 5 }) 0
    ErrAbortTx (by decide) rfl rfl
  ⟨h.1, h.2.2.1⟩

/-- C4: when attempt `j` ends with an error `e`, returned by `fn` or by
`Commit`, that is not `ErrAbortTx` (bare or wrapped) and has no error carrying
state code 40001 in its chain, `RunInTxContext` returns `e` itself and makes no
call of a later attempt. -/
theorem RunInTxContext_other_error_returned (env : Env) (opts : Option TxOptions) (j : Nat)
    (e : GoError)
    (hcall : Event.fn j ∈ (RunInTxContext env opts).1)
    (herr : env.fn j = FnResult.ret (some e) ∨
      (env.fn j = FnResult.ret none ∧ env.commit j = some e))
    (habort : errorsIsAbortTx e = false)
    (hcode : carriesStateCode "40001" e = false) :
    (RunInTxContext env opts).2 = Outcome.returned (some e) ∧
    ∀ ev ∈ (RunInTxContext env opts).1, ev.attempt ≤ j := by
  unfold RunInTxContext at hcall ⊢
  obtain ⟨pre, m, _, heq, hpre, hb⟩ := RunInTxContext.loop_reach_fn env _ _ 0 j hcall
  have hf2 : (RunInTxContext.f env (RunInTxContext.option opts).TxOptions j).2
      = Outcome.returned (some e) := by
    rcases herr with hfn | ⟨hfn, hc⟩
    · rw [RunInTxContext.f_of_fn_err env _ j e hb hfn]
    · rw [RunInTxContext.f_of_fn_nil env _ j hb hfn, hc]
  have hl := RunInTxContext.loop_fatal env (RunInTxContext.option opts).TxOptions m j e hf2
    habort (RunInTxContext.not_retryable_of_not_carries e hcode)
  rw [hl] at heq
  rw [heq]
  refine ⟨rfl, ?_⟩
  intro ev hev
  simp only [List.mem_append] at hev
  rcases hev with hev | hev
  · exact Nat.le_of_lt (hpre ev hev)
  · exact Nat.le_of_eq (RunInTxContext.f_attempt env _ j ev hev)

/-- C4 with a unique violation (code 23505) on the first attempt and
`MaxAttempts = 5`: the error comes back and `BeginTx` is called once. -/
theorem RunInTxContext_other_error_returned_witness :
    (RunInTxContext failsWithUniqueViolation
        (some { TxOptions := { Isolation := 0, ReadOnly := false }, MaxAttempts := 5 })).2
      = Outcome.returned (some pqUniqueViolation) ∧
    ∀ ev ∈ (RunInTxContext failsWithUniqueViolation
        (some { TxOptions := { Isolation := 0, ReadOnly := false }, MaxAttempts := 5 })).1,
      ev.attempt ≤ 0 :=
  RunInTxContext_other_error_returned failsWithUniqueViolation
    (some { TxOptions := { Isolation := 0, ReadOnly := false }, MaxAttempts := 5 }) 0
    pqUniqueViolation (by decide) (Or.inl rfl) rfl (by decide)

/-- C5 fails: `BeginTx` returns a lib/pq serialization failure on the first
attempt (`MaxAttempts = 3`); `RunInTxContext` does not return it but calls
`BeginTx` again, runs and commits the second attempt, and returns nil. -/
theorem RunInTxContext_begin_error_retried :
    beginFailsOnce.beginTx 0 (beginFailsOnce.ctxDone 0)
        { Isolation := LevelSerializable, ReadOnly := false }
      = some pqSerializationFailure ∧
    RunInTxContext beginFailsOnce
        (some { TxOptions := { Isolation := 0, ReadOnly := false }, MaxAttempts := 3 })
      = ([Event.beginTx 0 { Isolation := LevelSerializable, ReadOnly := false },
          Event.beginTx 1 { Isolation := LevelSerializable, ReadOnly := false },
          Event.fn 1, Event.commit 1, Event.rollback 1],
         Outcome.returned none) := by
  constructor <;> rfl

/-- C5 as amended: when `BeginTx` returns an error `e` on attempt `j`, `fn` is
not called on that attempt; and when `e` is neither `ErrAbortTx` (bare or
wrapped) nor an error whose first `*pq.Error` has code 40001,
`RunInTxContext` returns `e` and that `BeginTx` is its last call. -/
theorem RunInTxContext_begin_error (env : Env) (opts : Option TxOptions) (j : Nat)
    (e : GoError)
    (hcall : Event.beginTx j (RunInTxContext.option opts).TxOptions
      ∈ (RunInTxContext env opts).1)
    (hbegin : env.beginTx j (env.ctxDone j) (RunInTxContext.option opts).TxOptions = some e) :
    Event.fn j ∉ (RunInTxContext env opts).1 ∧
    (errorsIsAbortTx e = false → RunInTxContext.retryable e = false →
      (RunInTxContext env opts).2 = Outcome.returned (some e) ∧
      ∃ pre, (RunInTxContext env opts).1
          = pre ++ [Event.beginTx j (RunInTxContext.option opts).TxOptions] ∧
        ∀ ev ∈ pre, ev.attempt < j) := by
  unfold RunInTxContext at hcall ⊢
  obtain ⟨pre, m, _, heq, hpre, _⟩ := RunInTxContext.loop_reach_f env _ _ 0 _ hcall
  simp only [Event.attempt] at heq hpre
  have hf := RunInTxContext.f_of_begin_err env (RunInTxContext.option opts).TxOptions j e hbegin
  constructor
  · obtain ⟨post, hpost, hlt⟩ := RunInTxContext.loop_succ_trace env
      (RunInTxContext.option opts).TxOptions m j
    rw [heq, hpost, hf]
    intro hmem
    simp only [List.mem_append, List.mem_singleton, reduceCtorEq, false_or] at hmem
    rcases hmem with hmem | hmem
    · have := hpre _ hmem
      simp [Event.attempt] at this
    · have := hlt _ hmem
      simp [Event.attempt] at this
  · intro ha hr
    have hl := RunInTxContext.loop_fatal env (RunInTxContext.option opts).TxOptions m j e
      (by rw [hf]) ha hr
    rw [hl, hf] at heq
    rw [heq]
    exact ⟨rfl, pre, rfl, hpre⟩

/-- C5 as amended, with `BeginTx` failing with `sql.ErrConnDone`: the error
comes back and `fn` is not called. -/
theorem RunInTxContext_begin_error_witness :
    Event.fn 0 ∉ (RunInTxContext beginAlwaysFails none).1 ∧
    (RunInTxContext beginAlwaysFails none).2 = Outcome.returned (some errConnDone) :=
  have h := RunInTxContext_begin_error beginAlwaysFails none 0 errConnDone (by decide) rfl
  ⟨h.1, (h.2 rfl rfl).1⟩

/-- C6: a transaction obtained on attempt `j` sees the calls `fn`, then
`Commit` exactly when `fn` returned nil, then `Rollback`, one after the other,
after every call of earlier attempts and before every call of later ones,
the first of which, if any, is the next `BeginTx`.  So `Rollback` is called on
it exactly once, `Commit` is called on it if and only if `fn` returned nil,
and when that `Commit` succeeds the result is nil, whatever `Rollback`
returns. -/
theorem RunInTxContext_rollback_exactly_once (env : Env) (opts : Option TxOptions) (j : Nat)
    (hcall : Event.beginTx j (RunInTxContext.option opts).TxOptions
      ∈ (RunInTxContext env opts).1)
    (hbegin : env.beginTx j (env.ctxDone j) (RunInTxContext.option opts).TxOptions = none) :
    (∃ pre post, (RunInTxContext env opts).1
        = pre ++ ([Event.beginTx j (RunInTxContext.option opts).TxOptions, Event.fn j]
            ++ (if env.fn j = FnResult.ret none then [Event.commit j] else [])
            ++ [Event.rollback j]) ++ post ∧
      (∀ ev ∈ pre, ev.attempt < j) ∧ (∀ ev ∈ post, j < ev.attempt) ∧
      (post = [] ∨ ∃ rest,
        post = Event.beginTx (j + 1) (RunInTxContext.option opts).TxOptions :: rest)) ∧
    (RunInTxContext env opts).1.count (Event.rollback j) = 1 ∧
    (Event.commit j ∈ (RunInTxContext env opts).1 ↔ env.fn j = FnResult.ret none) ∧
    (env.fn j = FnResult.ret none → env.commit j = none →
      (RunInTxContext env opts).2 = Outcome.returned none) := by
  unfold RunInTxContext at hcall ⊢
  obtain ⟨pre, m, _, heq, hpre, _⟩ := RunInTxContext.loop_reach_f env _ _ 0 _ hcall
  simp only [Event.attempt] at heq hpre
  obtain ⟨post, hpost, hlt, hnext⟩ := RunInTxContext.loop_succ_shape env
    (RunInTxContext.option opts).TxOptions m j
  have hblock : (RunInTxContext.f env (RunInTxContext.option opts).TxOptions j).1
      = [Event.beginTx j (RunInTxContext.option opts).TxOptions, Event.fn j]
          ++ (if env.fn j = FnResult.ret none then [Event.commit j] else [])
          ++ [Event.rollback j] := by
    rcases hfn : env.fn j with (_ | e) | _
    · rw [RunInTxContext.f_of_fn_nil env _ j hbegin hfn]; simp
    · rw [RunInTxContext.f_of_fn_err env _ j e hbegin hfn]; simp
    · rw [RunInTxContext.f_of_fn_panic env _ j hbegin hfn]; simp
  have htrace : (RunInTxContext.loop env (RunInTxContext.option opts).TxOptions
        (RunInTxContext.option opts).MaxAttempts.toNat 0).1
      = pre ++ ([Event.beginTx j (RunInTxContext.option opts).TxOptions, Event.fn j]
            ++ (if env.fn j = FnResult.ret none then [Event.commit j] else [])
            ++ [Event.rollback j]) ++ post := by
    rw [heq]
    simp only
    rw [hpost, hblock]
    simp
  have hpre_r : Event.rollback j ∉ pre := fun hm => by
    have := hpre _ hm
    simp [Event.attempt] at this
  have hpost_r : Event.rollback j ∉ post := fun hm => by
    have := hlt _ hm
    simp [Event.attempt] at this
  have hpre_c : Event.commit j ∉ pre := fun hm => by
    have := hpre _ hm
    simp [Event.attempt] at this
  have hpost_c : Event.commit j ∉ post := fun hm => by
    have := hlt _ hm
    simp [Event.attempt] at this
  refine ⟨⟨pre, post, htrace, hpre, hlt, hnext⟩, ?_, ?_, ?_⟩
  · rw [htrace]
    simp only [List.count_append, List.count_eq_zero.2 hpre_r, List.count_eq_zero.2 hpost_r]
    split <;> simp [List.count_cons]
  · rw [htrace]
    simp only [List.mem_append, hpre_c, hpost_c, false_or, or_false]
    split <;> simp_all
  · intro hfn hc
    have hf := RunInTxContext.f_of_fn_nil env (RunInTxContext.option opts).TxOptions j
      hbegin hfn
    have hl := RunInTxContext.loop_nil env (RunInTxContext.option opts).TxOptions m j
      (by rw [hf, hc])
    rw [heq, hl]

/-- C6 on a run that commits at once while `Rollback` reports
`sql.ErrTxDone`: one `Rollback`, after the `Commit`, and the result is nil. -/
theorem RunInTxContext_rollback_exactly_once_witness :
    (RunInTxContext commitsAtOnce none).1.count (Event.rollback 0) = 1 ∧
    (Event.commit 0 ∈ (RunInTxContext commitsAtOnce none).1 ↔
      commitsAtOnce.fn 0 = FnResult.ret none) ∧
    (RunInTxContext commitsAtOnce none).2 = Outcome.returned none :=
  have h := RunInTxContext_rollback_exactly_once commitsAtOnce none 0 (by decide) rfl
  ⟨h.2.1, h.2.2.1, h.2.2.2 rfl rfl⟩

/-- C7: every `BeginTx` call of a run gets the same options: isolation
Serializable when `opts` is nil or `opts.Isolation` is `LevelDefault`,
`opts.Isolation` itself otherwise, and `opts.ReadOnly` unchanged (false
when `opts` is nil); and a run calls `BeginTx` at least once. -/
theorem RunInTxContext_begin_options (env : Env) (opts : Option TxOptions) (j : Nat)
    (o' : SqlTxOptions)
    (hcall : Event.beginTx j o' ∈ (RunInTxContext env opts).1) :
    (opts = none → o'.Isolation = LevelSerializable ∧ o'.ReadOnly = false) ∧
    (∀ o : TxOptions, opts = some o →
      (o.TxOptions.Isolation = LevelDefault → o'.Isolation = LevelSerializable) ∧
      (o.TxOptions.Isolation ≠ LevelDefault → o'.Isolation = o.TxOptions.Isolation) ∧
      o'.ReadOnly = o.TxOptions.ReadOnly) ∧
    Event.beginTx 0 (RunInTxContext.option opts).TxOptions ∈ (RunInTxContext env opts).1 := by
  unfold RunInTxContext at hcall ⊢
  obtain ⟨_, _, _, _, _, hf⟩ := RunInTxContext.loop_reach_f env _ _ 0 _ hcall
  have ho := RunInTxContext.opts_of_begin_mem env _ o' _ j hf
  subst ho
  refine ⟨?_, ?_, ?_⟩
  · intro h
    subst h
    exact ⟨rfl, rfl⟩
  · intro o h
    subst h
    refine ⟨fun hd => ?_, fun hd => ?_, rfl⟩
    · simp [RunInTxContext.option, hd]
    · simp [RunInTxContext.option, hd]
  · obtain ⟨m, hm⟩ : ∃ m, (RunInTxContext.option opts).MaxAttempts.toNat = m + 1 :=
      ⟨(RunInTxContext.option opts).MaxAttempts.toNat - 1, by
        have := RunInTxContext.option_maxAttempts_pos opts
        omega⟩
    rw [hm]
    exact RunInTxContext.begin_mem_loop_succ env _ m 0

/-- C7 with `opts` asking for `LevelDefault`, read-only: `BeginTx` is called
with Serializable, read-only. -/
theorem RunInTxContext_begin_options_witness :
    Event.beginTx 0 { Isolation := 6, ReadOnly := true }
      ∈ (RunInTxContext commitsAtOnce
          (some { TxOptions := { Isolation := LevelDefault, ReadOnly := true },
                  MaxAttempts := 0 })).1 ∧
    ({ Isolation := 6, ReadOnly := true } : SqlTxOptions).Isolation = LevelSerializable ∧
    ({ Isolation := 6, ReadOnly := true } : SqlTxOptions).ReadOnly = true :=
  have h := RunInTxContext_begin_options commitsAtOnce
    (some { TxOptions := { Isolation := LevelDefault, ReadOnly := true }, MaxAttempts := 0 })
    0 { Isolation := 6, ReadOnly := true } (by decide)
  ⟨by decide, (h.2.1 _ rfl).1 rfl, (h.2.1 _ rfl).2.2⟩

/-- C8 fails: `fn` fails on its first call with a serialization failure as a
non-lib/pq driver reports it (`SQLState()` returns 40001) and
`MaxAttempts = 3`; the classifier says serialization failure, yet
`RunInTxContext` makes no second attempt and returns the error. -/
theorem RunInTxContext_pgx_serialization_failure_not_retried :
    failsFirstWithPgx.fn 0 = FnResult.ret (some pgxSerializationFailure) ∧
    IsSerializationFailure pgxSerializationFailure = true ∧
    RunInTxContext failsFirstWithPgx
        (some { TxOptions := { Isolation := 0, ReadOnly := false }, MaxAttempts := 3 })
      = ([Event.beginTx 0 { Isolation := LevelSerializable, ReadOnly := false },
          Event.fn 0, Event.rollback 0],
         Outcome.returned (some pgxSerializationFailure)) := by
  refine ⟨rfl, rfl, rfl⟩

/-- C8 as amended: when attempt `j` ends with an error `e`, from `fn` or from
`Commit`, for which `IsSerializationFailure` holds and whose state code comes
from a `*pq.Error`, and `j + 1 < MaxAttempts`, then the executor's retry test
agrees with the classifier and `RunInTxContext` calls `BeginTx` for attempt
`j + 1`. -/
theorem RunInTxContext_retries_pq_serialization_failure (env : Env)
    (opts : Option TxOptions) (j : Nat) (e : GoError)
    (hcall : Event.fn j ∈ (RunInTxContext env opts).1)
    (herr : env.fn j = FnResult.ret (some e) ∨
      (env.fn j = FnResult.ret none ∧ env.commit j = some e))
    (hmore : ((j : Int) + 1) < (RunInTxContext.option opts).MaxAttempts)
    (hser : IsSerializationFailure e = true)
    (hpq : stateCodeFromPq e = true) :
    RunInTxContext.retryable e = IsSerializationFailure e ∧
    Event.beginTx (j + 1) (RunInTxContext.option opts).TxOptions
      ∈ (RunInTxContext env opts).1 := by
  have hagree := RunInTxContext.retryable_eq_of_stateCodeFromPq e hpq
  refine ⟨hagree, ?_⟩
  have hr : RunInTxContext.retryable e = true := by rw [hagree, hser]
  unfold RunInTxContext at hcall ⊢
  obtain ⟨pre, m, hm, heq, _, hb⟩ := RunInTxContext.loop_reach_fn env _ _ 0 j hcall
  have hf2 : (RunInTxContext.f env (RunInTxContext.option opts).TxOptions j).2
      = Outcome.returned (some e) := by
    rcases herr with hfn | ⟨hfn, hc⟩
    · rw [RunInTxContext.f_of_fn_err env _ j e hb hfn]
    · rw [RunInTxContext.f_of_fn_nil env _ j hb hfn, hc]
  have hl := RunInTxContext.loop_retry env (RunInTxContext.option opts).TxOptions m j e hf2
    (RunInTxContext.not_abort_of_retryable e hr) hr
  obtain ⟨m', hm'⟩ : ∃ m', m = m' + 1 := ⟨m - 1, by omega⟩
  subst hm'
  rw [heq, hl]
  simp only [List.mem_append]
  exact Or.inr (Or.inr (RunInTxContext.begin_mem_loop_succ env _ m' (j + 1)))

/-- C8 as amended, on a lib/pq serialization failure at the first of five
attempts: `BeginTx` is called for the second attempt. -/
theorem RunInTxContext_retries_pq_serialization_failure_witness :
    RunInTxContext.retryable pqSerializationFailure
      = IsSerializationFailure pqSerializationFailure ∧
    Event.beginTx (0 + 1) { Isolation := LevelSerializable, ReadOnly := false }
      ∈ (RunInTxContext (failsFirst 2)
          (some { TxOptions := { Isolation := 0, ReadOnly := false }, MaxAttempts := 5 })).1 :=
  RunInTxContext_retries_pq_serialization_failure (failsFirst 2)
    (some { TxOptions := { Isolation := 0, ReadOnly := false }, MaxAttempts := 5 }) 0
    pqSerializationFailure (by decide) (Or.inl rfl) (by decide) rfl rfl

/-- C9 fails: the first attempt fails with a lib/pq serialization failure,
the context is canceled before the second attempt, and `BeginTx` does not
look at the context (`MaxAttempts = 3`); `RunInTxContext` waits for nothing
and checks nothing: it runs `fn` a second time, commits, and returns nil. -/
theorem RunInTxContext_cancellation_not_observed :
    canceledBeginIgnores.fn 0 = FnResult.ret (some pqSerializationFailure) ∧
    canceledBeginIgnores.ctxDone 1 = true ∧
    RunInTxContext canceledBeginIgnores
        (some { TxOptions := { Isolation := 0, ReadOnly := false }, MaxAttempts := 3 })
      = ([Event.beginTx 0 { Isolation := LevelSerializable, ReadOnly := false },
          Event.fn 0, Event.rollback 0,
          Event.beginTx 1 { Isolation := LevelSerializable, ReadOnly := false },
          Event.fn 1, Event.commit 1, Event.rollback 1],
         Outcome.returned none) := by
  refine ⟨rfl, rfl, rfl⟩

/-- C9 as amended: when the first attempt fails with a lib/pq serialization
failure, attempts remain, the context is canceled before the second attempt
begins and `BeginTx`, given the canceled context, returns a cancellation
error `c`, then `RunInTxContext` returns `c` and `fn` is not called a second
time: the run is `BeginTx`, `fn`, `Rollback`, `BeginTx`. -/
theorem RunInTxContext_cancellation_through_begin (env : Env) (opts : Option TxOptions)
    (c : GoError)
    (hmore : 1 < (RunInTxContext.option opts).MaxAttempts)
    (hfirst : env.fnFailsPq40001 (RunInTxContext.option opts).TxOptions 0 = true)
    (hctx : env.ctxDone 1 = true)
    (hbegin : env.beginTx 1 true (RunInTxContext.option opts).TxOptions = some c)
    (hcancel : errorsIsContextCanceled c = true) :
    (RunInTxContext env opts).2 = Outcome.returned (some c) ∧
    Event.fn 1 ∉ (RunInTxContext env opts).1 ∧
    (RunInTxContext env opts).1
      = [Event.beginTx 0 (RunInTxContext.option opts).TxOptions, Event.fn 0,
          Event.rollback 0, Event.beginTx 1 (RunInTxContext.option opts).TxOptions] := by
  obtain ⟨m, hm⟩ : ∃ m, (RunInTxContext.option opts).MaxAttempts.toNat = m + 1 + 1 :=
    ⟨(RunInTxContext.option opts).MaxAttempts.toNat - 2, by omega⟩
  have hb : env.beginTx 1 (env.ctxDone 1) (RunInTxContext.option opts).TxOptions = some c := by
    rw [hctx]; exact hbegin
  have hf := RunInTxContext.f_of_begin_err env (RunInTxContext.option opts).TxOptions 1 c hb
  obtain ⟨ha, hr⟩ := RunInTxContext.not_special_of_contextCanceled c hcancel
  have hl := RunInTxContext.loop_fatal env (RunInTxContext.option opts).TxOptions m 1 c
    (by rw [hf]) ha hr
  have h0 := RunInTxContext.loop_of_fnFailsPq40001 env (RunInTxContext.option opts).TxOptions
    (m + 1) 0 hfirst
  have hrun : RunInTxContext env opts
      = ([Event.beginTx 0 (RunInTxContext.option opts).TxOptions, Event.fn 0,
          Event.rollback 0, Event.beginTx 1 (RunInTxContext.option opts).TxOptions],
         Outcome.returned (some c)) := by
    unfold RunInTxContext
    rw [hm, h0, hl, hf]
    rfl
  rw [hrun]
  exact ⟨rfl, by simp, rfl⟩

/-- C9 as amended, with a `BeginTx` that returns `context.Canceled` once the
context is canceled and `MaxAttempts = 3`. -/
theorem RunInTxContext_cancellation_through_begin_witness :
    (RunInTxContext canceledBeginHonours
        (some { TxOptions := { Isolation := 0, ReadOnly := false }, MaxAttempts := 3 })).2
      = Outcome.returned (some contextCanceled) ∧
    Event.fn 1 ∉ (RunInTxContext canceledBeginHonours
        (some { TxOptions := { Isolation := 0, ReadOnly := false }, MaxAttempts := 3 })).1 :=
  have h := RunInTxContext_cancellation_through_begin canceledBeginHonours
    (some { TxOptions := { Isolation := 0, ReadOnly := false }, MaxAttempts := 3 })
    contextCanceled (by decide) rfl rfl rfl rfl
  ⟨h.1, h.2.1⟩

/-! ## Claims about the backoff strategies -/

namespace Backoff

theorem wrapInt64_of_inRange (x : Int) (h1 : minInt64 ≤ x) (h2 : x ≤ maxInt64) :
    wrapInt64 x = x := by
  unfold wrapInt64
  unfold minInt64 at h1
  unfold maxInt64 at h2
  omega

/-- C10: the delay of `NewLinear` is `min(BaseDelay + attempt * Increment,
MaxDelay)` with the product and the sum taken in `int64`; when neither
overflows, that is the minimum of the exact sum and `MaxDelay`. -/
theorem NewLinear_eq_min (config : LinearConfig) (attempt : Int) :
    NewLinear config attempt
      = min (wrapInt64 (config.Config.BaseDelay + wrapInt64 (attempt * config.Increment)))
          config.Config.MaxDelay ∧
    (minInt64 ≤ attempt * config.Increment → attempt * config.Increment ≤ maxInt64 →
      minInt64 ≤ config.Config.BaseDelay + attempt * config.Increment →
      config.Config.BaseDelay + attempt * config.Increment ≤ maxInt64 →
      NewLinear config attempt
        = min (config.Config.BaseDelay + attempt * config.Increment) config.Config.MaxDelay) := by
  have hmin : ∀ a b : Int, (if a > b then b else a) = min a b := by
    intro a b
    rw [Int.min_def]
    split <;> split <;> omega
  constructor
  · exact hmin _ _
  · intro h1 h2 h3 h4
    unfold NewLinear
    rw [wrapInt64_of_inRange _ h1 h2, wrapInt64_of_inRange _ h3 h4]
    exact hmin _ _

/-- C10 on `DefaultLinear`: 400ms at attempt 3, the 5s cap at attempt 100. -/
theorem NewLinear_eq_min_witness :
    DefaultLinear 3 = min (100 * Millisecond + 3 * (100 * Millisecond)) (5 * Second) ∧
    DefaultLinear 3 = 400 * Millisecond ∧
    DefaultLinear 100 = 5 * Second :=
  ⟨(NewLinear_eq_min
      { Config := { BaseDelay := 100 * Millisecond, MaxDelay := 5 * Second },
        Increment := 100 * Millisecond } 3).2
      (by decide) (by decide) (by decide) (by decide),
    by decide, by decide⟩

theorem tdiv_two_of_pos (x : Int) (h : 0 < Int.tdiv x 2) :
    0 ≤ x ∧ Int.tdiv x 2 = x / 2 := by
  have hx : 0 ≤ x := by
    rcases x with n | n
    · exact Int.ofNat_nonneg n
    · exfalso
      have h2 : Int.tdiv (Int.negSucc n) 2 = -(((n + 1) / 2 : Nat) : Int) := rfl
      rw [h2] at h
      omega
  exact ⟨hx, Int.tdiv_eq_ediv hx (by decide)⟩

theorem NewExponential.baseDelay_le {F : Type} (fl : Float64Ops F)
    (config : ExponentialConfig F) (attempt : Int) :
    NewExponential.baseDelay fl config attempt ≤ config.Config.MaxDelay := by
  unfold NewExponential.baseDelay
  simp only
  split <;> omega

/-- The jittered delay never exceeds the capped delay it is computed from. -/
theorem NewExponential.delay_le (jitterType : JitterType) (rand : Rand) (raw : Int)
    (hraw : raw ≤ maxInt64) : NewExponential.delay jitterType rand raw ≤ raw := by
  unfold NewExponential.delay
  split
  · split
    · next hpos => have := rand.inRange raw hpos; omega
    · exact Int.le_refl _
  · split
    · simp only
      split
      · next hpos =>
        obtain ⟨_, hdiv⟩ := tdiv_two_of_pos raw hpos
        have hr := rand.inRange (Int.tdiv raw 2) hpos
        rw [hdiv] at hr hpos ⊢
        unfold wrapInt64
        unfold maxInt64 at hraw
        omega
      · exact Int.le_refl _
    · exact Int.le_refl _

/-- C11: whatever the `float64` computation yields, whatever the jitter kind
and whatever the random source returns, the delay of `NewExponential` is at
most `MaxDelay` (an `int64`), for every attempt. -/
theorem NewExponential_le_MaxDelay {F : Type} (fl : Float64Ops F) (rand : Rand)
    (config : ExponentialConfig F) (attempt : Int)
    (hmax : config.Config.MaxDelay ≤ maxInt64) :
    NewExponential fl rand config attempt ≤ config.Config.MaxDelay := by
  have hcap := NewExponential.baseDelay_le fl config attempt
  have := NewExponential.delay_le config.JitterType rand
    (NewExponential.baseDelay fl config attempt) (by omega)
  unfold NewExponential
  omega

/-- C11 on `DefaultExponentialWithEqualJitter` at attempt 10 with the
greatest random value: at most 5s. -/
theorem NewExponential_le_MaxDelay_witness :
    (5 * Second ≤ maxInt64) ∧
    NewExponential exactFloat64 randMax defaultEqualJitterConfig 10 ≤ 5 * Second :=
  ⟨by decide, NewExponential_le_MaxDelay exactFloat64 randMax defaultEqualJitterConfig 10
    (by decide)⟩

/-- C12 (behaviour of the code): `DefaultExponential` has NoJitter,
`BaseDelay = 100ms >= 0`, `Multiplier = 2 >= 1` and `MaxDelay = 5s >=
BaseDelay`.  At attempt 36 the scaled delay 1e8 * 2^36 exceeds `MaxDelay` and
is capped to 5s; at attempt 37 the product 1e8 * 2^37 is beyond the `int64`
range, its conversion yields the least `int64` on amd64, which is not above
`MaxDelay` and so is returned as it is: the delay drops from 5s to a negative
value. -/
theorem NewExponential_overflow_not_monotone :
    defaultExponentialConfig.JitterType = NoJitter ∧
    0 ≤ defaultExponentialConfig.Config.BaseDelay ∧
    defaultExponentialConfig.Config.BaseDelay ≤ defaultExponentialConfig.Config.MaxDelay ∧
    maxInt64 < 100 * Millisecond * 2 ^ 37 ∧
    NewExponential amd64Float64 randZero defaultExponentialConfig 36 = 5 * Second ∧
    NewExponential amd64Float64 randZero defaultExponentialConfig 37 = minInt64 ∧
    ¬ (NewExponential amd64Float64 randZero defaultExponentialConfig 36
        ≤ NewExponential amd64Float64 randZero defaultExponentialConfig 37) := by
  decide

/-- C13 fails: with `BaseDelay = 0` the capped value is 0 and the FullJitter
delay is 0, which is not below 0; with `BaseDelay = 1ns` the capped value is
1, its half is 0, and the EqualJitter delay is 1, which is not below 1. -/
theorem NewExponential_jitter_not_below_raw :
    NewExponential.baseDelay exactFloat64 zeroBaseFullJitterConfig 0 = 0 ∧
    NewExponential exactFloat64 randZero zeroBaseFullJitterConfig 0 = 0 ∧
    NewExponential.baseDelay exactFloat64 oneNanosecondEqualJitterConfig 0 = 1 ∧
    NewExponential exactFloat64 randZero oneNanosecondEqualJitterConfig 0 = 1 := by
  decide

/-- C13 as amended: for the capped value `raw` of any configuration and
attempt, the FullJitter delay lies in `[0, raw)` when `0 < raw` and is `raw`
otherwise; the EqualJitter delay lies in `[raw/2, raw)` when `0 < raw/2` and
is `raw` otherwise. -/
theorem NewExponential_jitter_range {F : Type} (fl : Float64Ops F) (rand : Rand)
    (config : ExponentialConfig F) (attempt : Int)
    (hmax : config.Config.MaxDelay ≤ maxInt64) :
    (0 < NewExponential.baseDelay fl config attempt →
      0 ≤ NewExponential.delay FullJitter rand (NewExponential.baseDelay fl config attempt) ∧
      NewExponential.delay FullJitter rand (NewExponential.baseDelay fl config attempt)
        < NewExponential.baseDelay fl config attempt) ∧
    (NewExponential.baseDelay fl config attempt ≤ 0 →
      NewExponential.delay FullJitter rand (NewExponential.baseDelay fl config attempt)
        = NewExponential.baseDelay fl config attempt) ∧
    (0 < Int.tdiv (NewExponential.baseDelay fl config attempt) 2 →
      Int.tdiv (NewExponential.baseDelay fl config attempt) 2
        ≤ NewExponential.delay EqualJitter rand (NewExponential.baseDelay fl config attempt) ∧
      NewExponential.delay EqualJitter rand (NewExponential.baseDelay fl config attempt)
        < NewExponential.baseDelay fl config attempt) ∧
    (Int.tdiv (NewExponential.baseDelay fl config attempt) 2 ≤ 0 →
      NewExponential.delay EqualJitter rand (NewExponential.baseDelay fl config attempt)
        = NewExponential.baseDelay fl config attempt) := by
  have hcap := NewExponential.baseDelay_le fl config attempt
  generalize NewExponential.baseDelay fl config attempt = raw at hcap ⊢
  refine ⟨fun hpos => ?_, fun hle => ?_, fun hpos => ?_, fun hle => ?_⟩
  · have := rand.inRange raw hpos
    simp only [NewExponential.delay, if_true, gt_iff_lt, hpos]
    exact this
  · have : ¬ raw > 0 := by omega
    simp [NewExponential.delay, this]
  · obtain ⟨_, hdiv⟩ := tdiv_two_of_pos raw hpos
    have hr := rand.inRange (Int.tdiv raw 2) hpos
    have hne : EqualJitter ≠ FullJitter := by decide
    simp only [NewExponential.delay, hne, if_false, if_true, gt_iff_lt, hpos]
    rw [hdiv] at hr hpos ⊢
    unfold wrapInt64
    unfold maxInt64 at hmax
    omega
  · have : ¬ Int.tdiv raw 2 > 0 := by omega
    have hne : EqualJitter ≠ FullJitter := by decide
    simp [NewExponential.delay, hne, this]

/-- C13 as amended, on `DefaultExponentialWithEqualJitter` at attempt 3
(capped value 800ms): the delay with the greatest random value lies in
`[400ms, 800ms)`. -/
theorem NewExponential_jitter_range_witness :
    NewExponential.baseDelay exactFloat64 defaultEqualJitterConfig 3 = 800 * Millisecond ∧
    400 * Millisecond
      ≤ NewExponential.delay EqualJitter randMax
          (NewExponential.baseDelay exactFloat64 defaultEqualJitterConfig 3) ∧
    NewExponential.delay EqualJitter randMax
        (NewExponential.baseDelay exactFloat64 defaultEqualJitterConfig 3)
      < NewExponential.baseDelay exactFloat64 defaultEqualJitterConfig 3 :=
  have h := (NewExponential_jitter_range exactFloat64 randMax defaultEqualJitterConfig 3
    (by decide)).2.2.1 (by decide)
  ⟨by decide, h.1, h.2⟩

end Backoff

/-! ## Claims about the error classifier -/

theorem IsErrorCode_iff (err : GoError) (code : String) :
    IsErrorCode err code = true ↔ errorsAsSQLState err = some code := by
  unfold IsErrorCode
  split
  · next s hs => simp [hs]
  · next hs => simp [hs]

theorem contains_iff (xs : List String) (x : String) : contains xs x = true ↔ x ∈ xs := by
  induction xs with
  | nil => simp [contains]
  | cons p ps ih =>
    unfold contains
    by_cases h : p = x
    · simp [h]
    · have h' : ¬ x = p := fun hx => h hx.symm
      simp [h, h', ih]

theorem IsUniqueViolation_iff (err : GoError) (cs : List String) :
    IsUniqueViolation err cs = true ↔
      errorsAsSQLState err = some "23505" ∧ (cs = [] ∨ extractConstraint err ∈ cs) := by
  unfold IsUniqueViolation
  rw [← IsErrorCode_iff, ← contains_iff]
  cases IsErrorCode err "23505" <;> cases cs <;> simp

theorem IsForeignKeyViolation_iff (err : GoError) (cs : List String) :
    IsForeignKeyViolation err cs = true ↔
      errorsAsSQLState err = some "23503" ∧ (cs = [] ∨ extractConstraint err ∈ cs) := by
  unfold IsForeignKeyViolation
  rw [← IsErrorCode_iff, ← contains_iff]
  cases IsErrorCode err "23503" <;> cases cs <;> simp

theorem bool_eq_of_iff (a b : Bool) (h : a = true ↔ b = true) : a = b := by
  cases a <;> cases b <;> simp_all

/-- C14: called without constraint names, each predicate holds exactly when
the state code of the first error of the chain that exposes one is its fixed
code; so all are false when no error of the chain exposes a state code, and
`IsSerializationFailure` is false for the codes 23505 and 57014. -/
theorem classifier_fixed_state_codes (err : GoError) :
    (IsUniqueViolation err [] = true ↔ errorsAsSQLState err = some "23505") ∧
    (IsForeignKeyViolation err [] = true ↔ errorsAsSQLState err = some "23503") ∧
    (IsInvalidTextRepresentation err = true ↔ errorsAsSQLState err = some "22P02") ∧
    (IsCharacterNotInRepertoire err = true ↔ errorsAsSQLState err = some "22021") ∧
    (IsQueryCanceled err = true ↔ errorsAsSQLState err = some "57014") ∧
    (IsSerializationFailure err = true ↔ errorsAsSQLState err = some "40001") ∧
    (errorsAsSQLState err = none →
      IsUniqueViolation err [] = false ∧ IsForeignKeyViolation err [] = false ∧
      IsInvalidTextRepresentation err = false ∧ IsCharacterNotInRepertoire err = false ∧
      IsQueryCanceled err = false ∧ IsSerializationFailure err = false) ∧
    (errorsAsSQLState err = some "23505" → IsSerializationFailure err = false) ∧
    (errorsAsSQLState err = some "57014" → IsSerializationFailure err = false) := by
  refine ⟨?_, ?_, IsErrorCode_iff err _, IsErrorCode_iff err _, IsErrorCode_iff err _,
    IsErrorCode_iff err _, ?_, ?_, ?_⟩
  · rw [IsUniqueViolation_iff]; simp
  · rw [IsForeignKeyViolation_iff]; simp
  · intro h
    simp [IsUniqueViolation, IsForeignKeyViolation, IsInvalidTextRepresentation,
      IsCharacterNotInRepertoire, IsQueryCanceled, IsSerializationFailure, IsErrorCode, h]
  · intro h
    simp [IsSerializationFailure, IsErrorCode, h]
  · intro h
    simp [IsSerializationFailure, IsErrorCode, h]

/-- C14 on lib/pq errors with the codes 40001, 23505 and 57014, and on an
error without state code. -/
theorem classifier_fixed_state_codes_witness :
    IsSerializationFailure pqSerializationFailure = true ∧
    IsSerializationFailure pqUniqueViolation = false ∧
    IsSerializationFailure pqQueryCanceled = false ∧
    IsSerializationFailure errConnDone = false :=
  ⟨(classifier_fixed_state_codes pqSerializationFailure).2.2.2.2.2.1.2 rfl,
    (classifier_fixed_state_codes pqUniqueViolation).2.2.2.2.2.2.2.1 rfl,
    (classifier_fixed_state_codes pqQueryCanceled).2.2.2.2.2.2.2.2 rfl,
    ((classifier_fixed_state_codes errConnDone).2.2.2.2.2.2.1 rfl).2.2.2.2.2⟩

/-- C15: with a non-empty list of constraint names, `IsUniqueViolation`
(`IsForeignKeyViolation`) holds exactly when the state code is 23505 (23503)
and the extracted constraint name is an element of the list, equal to it
character for character; reordering the list does not change the result. -/
theorem constraint_membership (err : GoError) (cs : List String) (hne : cs ≠ []) :
    (IsUniqueViolation err cs = true ↔
      errorsAsSQLState err = some "23505" ∧ ∃ c ∈ cs, c = extractConstraint err) ∧
    (IsForeignKeyViolation err cs = true ↔
      errorsAsSQLState err = some "23503" ∧ ∃ c ∈ cs, c = extractConstraint err) ∧
    (∀ cs' : List String, cs.Perm cs' →
      IsUniqueViolation err cs' = IsUniqueViolation err cs ∧
      IsForeignKeyViolation err cs' = IsForeignKeyViolation err cs) := by
  refine ⟨?_, ?_, ?_⟩
  · rw [IsUniqueViolation_iff]; simp [hne]
  · rw [IsForeignKeyViolation_iff]; simp [hne]
  · intro cs' hperm
    have hne' : cs' ≠ [] := fun h => hne (by simpa [h] using hperm)
    constructor
    · apply bool_eq_of_iff
      rw [IsUniqueViolation_iff, IsUniqueViolation_iff]
      simp [hne, hne', hperm.mem_iff]
    · apply bool_eq_of_iff
      rw [IsForeignKeyViolation_iff, IsForeignKeyViolation_iff]
      simp [hne, hne', hperm.mem_iff]

/-- C15 on the code 23505 with constraint `users_email_key`: true for
`users_email_key`, false for `other_key`, and the same in either order of a
two-element list. -/
theorem constraint_membership_witness :
    IsUniqueViolation pqUniqueViolation ["users_email_key"] = true ∧
    IsUniqueViolation pqUniqueViolation ["other_key"] = false ∧
    IsUniqueViolation pqUniqueViolation ["users_email_key", "other_key"]
      = IsUniqueViolation pqUniqueViolation ["other_key", "users_email_key"] :=
  ⟨(constraint_membership pqUniqueViolation ["users_email_key"] (by decide)).1.2
      ⟨rfl, "users_email_key", by decide, rfl⟩,
    by decide,
    ((constraint_membership pqUniqueViolation ["other_key", "users_email_key"]
      (by decide)).2.2 ["users_email_key", "other_key"] (List.Perm.swap _ _ _)).1⟩

/-- C16: for an error with a `*pq.Error` in its chain, `extractConstraint`
returns its `Constraint` field when that is non-empty; otherwise
`extractCRDBKey(Message)` when that is non-empty; otherwise
`extractLastQuote(Message)`; and so the empty string when `Message` is empty
or neither pattern matches. -/
theorem extractConstraint_of_pq (err : GoError) (pqErr : PqError)
    (hpq : errorsAsPq err = some pqErr) :
    (pqErr.Constraint ≠ "" → extractConstraint err = pqErr.Constraint) ∧
    (pqErr.Constraint = "" → extractCRDBKey pqErr.Message ≠ "" →
      extractConstraint err = extractCRDBKey pqErr.Message) ∧
    (pqErr.Constraint = "" → extractCRDBKey pqErr.Message = "" →
      extractConstraint err = extractLastQuote pqErr.Message) ∧
    (pqErr.Constraint = "" → pqErr.Message = "" → extractConstraint err = "") ∧
    (pqErr.Constraint = "" → extractCRDBKey pqErr.Message = "" →
      extractLastQuote pqErr.Message = "" → extractConstraint err = "") := by
  have hempty : extractCRDBKey "" = "" ∧ extractLastQuote "" = "" := by decide
  unfold extractConstraint
  rw [hpq]
  simp only
  refine ⟨fun h => ?_, fun h hk => ?_, fun h hk => ?_, fun h hm => ?_, fun h hk hq => ?_⟩
  · simp [h]
  · have hm : pqErr.Message ≠ "" := fun hm => hk (by rw [hm]; exact hempty.1)
    simp [h, hm, hk]
  · by_cases hm : pqErr.Message = ""
    · simp [h, hm, hempty.2]
    · by_cases hq : extractLastQuote pqErr.Message = ""
      · simp [h, hm, hk, hq]
      · simp [h, hm, hk, hq]
  · simp [h, hm]
  · by_cases hm : pqErr.Message = ""
    · simp [h, hm]
    · simp [h, hm, hk, hq]

/-- C16 on lib/pq errors: the `Constraint` field wins over the message, and
without it the key of a CockroachDB message is extracted. -/
theorem extractConstraint_of_pq_witness :
    extractConstraint pqUniqueViolation = "users_email_key" ∧
    extractConstraint pqForeignKeyViolationCRDB = "a@primary" :=
  ⟨(extractConstraint_of_pq pqUniqueViolation
      ⟨"23505", "users_email_key",
        "duplicate key value violates unique constraint \"users_email_key\""⟩ rfl).1
      (by decide),
    ((extractConstraint_of_pq pqForeignKeyViolationCRDB
      ⟨"23503", "",
        "foreign key violation: value ['b'] not found in a@primary [id] (txn=e3f9af56-5f73-4899-975c-4bb1de800402)"⟩
      rfl).2.1 rfl (by decide)).trans (by decide)⟩

/-- C19 fails: the extraction yields the empty string for a lib/pq unique
violation (foreign-key violation) without `Constraint` and `Message`, and
the list `[""]` is not empty; `contains` finds the empty string in it and
the predicate is true. -/
theorem empty_name_matches_empty_constraint :
    extractConstraint pqUniqueViolationUnnamed = "" ∧
    IsUniqueViolation pqUniqueViolationUnnamed [""] = true ∧
    extractConstraint pqForeignKeyViolationUnnamed = "" ∧
    IsForeignKeyViolation pqForeignKeyViolationUnnamed [""] = true := by
  decide

/-- C19 as amended: when the extraction yields the empty string,
`IsUniqueViolation` and `IsForeignKeyViolation` are false for every
non-empty list of constraint names none of which is the empty string. -/
theorem empty_constraint_matches_no_name (err : GoError) (cs : List String)
    (hext : extractConstraint err = "") (hne : cs ≠ []) (hnames : "" ∉ cs) :
    IsUniqueViolation err cs = false ∧ IsForeignKeyViolation err cs = false := by
  constructor
  · rw [← Bool.not_eq_true, IsUniqueViolation_iff, hext]
    simp [hne, hnames]
  · rw [← Bool.not_eq_true, IsForeignKeyViolation_iff, hext]
    simp [hne, hnames]

/-- C19 as amended, on a unique violation without constraint name, asked
about `users_email_key`. -/
theorem empty_constraint_matches_no_name_witness :
    extractConstraint pqUniqueViolationUnnamed = "" ∧
    IsUniqueViolation pqUniqueViolationUnnamed ["users_email_key"] = false ∧
    IsForeignKeyViolation pqUniqueViolationUnnamed ["users_email_key"] = false :=
  ⟨by decide,
    empty_constraint_matches_no_name pqUniqueViolationUnnamed ["users_email_key"]
      (by decide) (by decide) (by decide)⟩

theorem errorsAs_of_wrapsPlainly (e : GoError) (w : GoError) (h : wrapsPlainly e w = true) :
    errorsAsSQLState w = errorsAsSQLState e ∧ errorsAsPq w = errorsAsPq e := by
  induction w with
  | pq c k m => simp [wrapsPlainly] at h; subst h; exact ⟨rfl, rfl⟩
  | abortTx => simp [wrapsPlainly] at h; subst h; exact ⟨rfl, rfl⟩
  | leaf m s c => simp [wrapsPlainly] at h; subst h; exact ⟨rfl, rfl⟩
  | wrap m s c cause ih =>
    cases s with
    | some s => simp [wrapsPlainly] at h; subst h; exact ⟨rfl, rfl⟩
    | none =>
      simp only [wrapsPlainly, Bool.or_eq_true, decide_eq_true_eq] at h
      rcases h with h | h
      · subst h; exact ⟨rfl, rfl⟩
      · have := ih h
        simpa [errorsAsSQLState, errorsAsPq] using this

/-- Wrapping a lib/pq error in errors that expose no state code changes no
answer of `IsUniqueViolation` and `IsForeignKeyViolation`. -/
theorem classification_of_wrapped_pq (e w : GoError) (pqErr : PqError) (cs : List String)
    (hpq : errorsAsPq e = some pqErr) (hw : wrapsPlainly e w = true) :
    IsUniqueViolation w cs = IsUniqueViolation e cs ∧
    IsForeignKeyViolation w cs = IsForeignKeyViolation e cs := by
  obtain ⟨hs, hp⟩ := errorsAs_of_wrapsPlainly e w hw
  have hext : extractConstraint w = extractConstraint e := by
    unfold extractConstraint
    rw [hp, hpq]
  simp only [IsUniqueViolation, IsForeignKeyViolation, IsErrorCode, hs, hext, and_self]

/-- C20 (behaviour of the code): a driver error that is not a `*pq.Error`
exposes the state code 23505 (23503) and the field `ConstraintName`; wrapped
with `fmt.Errorf("...: %w", e)`, it still has its state code, found through
the chain, but its constraint name is read from the wrapper itself and is
empty, so the answer for the name of the constraint changes from true to
false. -/
theorem wrapped_constraint_name_lost :
    wrapsPlainly pgxUniqueViolation wrappedPgxUniqueViolation = true ∧
    IsUniqueViolation pgxUniqueViolation ["users_email_key"] = true ∧
    IsUniqueViolation wrappedPgxUniqueViolation ["users_email_key"] = false ∧
    IsUniqueViolation wrappedPgxUniqueViolation [] = true ∧
    extractConstraint wrappedPgxUniqueViolation = "" ∧
    IsForeignKeyViolation pgxForeignKeyViolation ["a_id_fkey"] = true ∧
    IsForeignKeyViolation wrappedPgxForeignKeyViolation ["a_id_fkey"] = false := by
  decide


/-! ## Claims about the two patterns -/

theorem starLoop_skip (cls : Char → Bool) (k : List Char → Option (List Char))
    (hk : ∀ c cs, cls c = true → k (c :: cs) = none) (s : List Char) :
    starLoop cls k s = k (s.dropWhile cls) := by
  induction s with
  | nil => rfl
  | cons c cs ih =>
    unfold starLoop
    by_cases hc : cls c = true
    · rw [if_pos hc, ih, hk c cs hc, List.dropWhile_cons_of_pos hc]
      cases k (List.dropWhile cls cs) <;> rfl
    · rw [if_neg hc, List.dropWhile_cons_of_neg hc]

theorem matchPieces_lastQuote (s o c : List Char) :
    matchPieces reLastQuoteExtractor s o c =
      match s with
      | [] => none
      | x :: xs =>
        if x = '"' then
          match xs.dropWhile notQuote with
          | [] => none
          | y :: ys =>
            if y = '"' then
              if ys.dropWhile notQuote = [] then some (xs.take (xs.length - (ys.length + 1)))
              else none
            else none
        else none := by
  cases s with
  | nil => rfl
  | cons x xs =>
    simp only [reLastQuoteExtractor, matchPieces]
    split
    · rw [starLoop_skip]
      · cases hd : List.dropWhile notQuote xs with
        | nil => rfl
        | cons y ys =>
          simp only [matchPieces]
          split
          · rw [starLoop_skip]
            · cases hd2 : List.dropWhile notQuote ys with
              | nil => simp [matchPieces]
              | cons z zs => simp [matchPieces]
            · intro c cs _
              simp [matchPieces]
          · rfl
      · intro c cs hc
        simp only [matchPieces]
        have : c ≠ '"' := by simpa [notQuote] using hc
        simp [this]
    · rfl

theorem dropWhile_append_stop (p : Char → Bool) (a : List Char) (b : Char) (r : List Char)
    (ha : ∀ x ∈ a, p x = true) (hb : p b = false) :
    (a ++ b :: r).dropWhile p = b :: r := by
  induction a with
  | nil => simp [List.dropWhile, hb]
  | cons x a ih =>
    have hx : p x = true := ha x (List.mem_cons_self x a)
    simp only [List.cons_append, List.dropWhile_cons_of_pos hx]
    exact ih (fun y hy => ha y (List.mem_cons_of_mem x hy))

theorem takeWhile_append_stop (p : Char → Bool) (a : List Char) (b : Char) (r : List Char)
    (ha : ∀ x ∈ a, p x = true) (hb : p b = false) :
    (a ++ b :: r).takeWhile p = a := by
  induction a with
  | nil => simp [List.takeWhile, hb]
  | cons x a ih =>
    have hx : p x = true := ha x (List.mem_cons_self x a)
    simp only [List.cons_append, List.takeWhile_cons_of_pos hx]
    rw [ih (fun y hy => ha y (List.mem_cons_of_mem x hy))]

theorem split_at_dropWhile (p : Char → Bool) (xs : List Char) (y : Char) (ys : List Char)
    (h : xs.dropWhile p = y :: ys) :
    ∃ tw, xs = tw ++ y :: ys ∧ (∀ x ∈ tw, p x = true) ∧ p y = false := by
  refine ⟨xs.takeWhile p, ?_, fun x hx => (List.mem_takeWhile_imp hx), ?_⟩
  · rw [← h, List.takeWhile_append_dropWhile]
  · have := List.head_dropWhile_not p xs (by rw [h]; simp)
    simpa [h] using this

theorem take_length_sub (tw : List Char) (y : Char) (ys : List Char) :
    (tw ++ y :: ys).take ((tw ++ y :: ys).length - (ys.length + 1)) = tw := by
  have h1 : (tw ++ y :: ys).length - (ys.length + 1) = tw.length := by simp
  rw [h1, List.take_left']
  rfl

theorem notQuote_iff (c : Char) : notQuote c = true ↔ c ≠ '"' := by
  simp [notQuote]

theorem all_notQuote_iff (l : List Char) : (∀ x ∈ l, notQuote x = true) ↔ '"' ∉ l := by
  constructor
  · intro h hm
    have := h _ hm
    simp [notQuote] at this
  · intro h x hx
    rw [notQuote_iff]
    intro hxq
    exact h (hxq ▸ hx)

theorem lastQuote_match_iff (s o c cap : List Char) :
    matchPieces reLastQuoteExtractor s o c = some cap ↔
      ∃ post, s = '"' :: (cap ++ '"' :: post) ∧ '"' ∉ cap ∧ '"' ∉ post := by
  rw [matchPieces_lastQuote]
  constructor
  · intro h
    cases s with
    | nil => simp at h
    | cons x xs =>
      simp only at h
      split at h
      · next hx =>
        subst hx
        split at h
        · simp at h
        · next y ys hd =>
          obtain ⟨tw, hxs, htw, hy⟩ := split_at_dropWhile notQuote xs y ys hd
          subst hxs
          split at h
          · next hyq =>
            subst hyq
            split at h
            · next hys =>
              rw [take_length_sub] at h
              have hcap : tw = cap := Option.some.inj h
              subst hcap
              exact ⟨ys, rfl, (all_notQuote_iff _).1 htw,
                (all_notQuote_iff _).1 (List.dropWhile_eq_nil_iff.1 hys)⟩
            · simp at h
          · simp at h
      · simp at h
  · rintro ⟨post, rfl, hcap, hpost⟩
    have hq : notQuote '"' = false := by decide
    have hd := dropWhile_append_stop notQuote cap '"' post ((all_notQuote_iff _).2 hcap) hq
    have hp : post.dropWhile notQuote = [] :=
      List.dropWhile_eq_nil_iff.2 ((all_notQuote_iff _).2 hpost)
    simp only [if_true, hd, hp]
    rw [take_length_sub]

theorem lastQuote_match_count (s o c cap : List Char)
    (h : matchPieces reLastQuoteExtractor s o c = some cap) :
    ∃ t, s = '"' :: t ∧ t.count '"' = 1 := by
  obtain ⟨post, rfl, hcap, hpost⟩ := (lastQuote_match_iff s o c cap).1 h
  exact ⟨_, rfl, by
    simp [List.count_cons, List.count_append, List.count_eq_zero_of_not_mem hcap,
      List.count_eq_zero_of_not_mem hpost]⟩

theorem search_lastQuote_few (s : List Char) (h : s.count '"' < 2) :
    search reLastQuoteExtractor s = none := by
  induction s with
  | nil => rfl
  | cons c cs ih =>
    unfold search
    cases hm : matchPieces reLastQuoteExtractor (c :: cs) (c :: cs) [] with
    | some r =>
      obtain ⟨t, ht, hcount⟩ := lastQuote_match_count _ _ _ _ hm
      rw [ht] at h
      simp [List.count_cons, hcount] at h
    | none =>
      simp only
      apply ih
      have := List.count_le_count_cons (a := '"') (b := c) (l := cs)
      omega

theorem search_lastQuote_found (pre mid post : List Char) (hmid : '"' ∉ mid)
    (hpost : '"' ∉ post) :
    search reLastQuoteExtractor (pre ++ '"' :: (mid ++ '"' :: post)) = some mid := by
  induction pre with
  | nil =>
    have hm := (lastQuote_match_iff ('"' :: (mid ++ '"' :: post)) ('"' :: (mid ++ '"' :: post))
      [] mid).2 ⟨post, rfl, hmid, hpost⟩
    simp only [List.nil_append]
    unfold search
    rw [hm]
  | cons c pre ih =>
    simp only [List.cons_append]
    unfold search
    cases hm : matchPieces reLastQuoteExtractor (c :: (pre ++ '"' :: (mid ++ '"' :: post)))
        (c :: (pre ++ '"' :: (mid ++ '"' :: post))) [] with
    | some r =>
      obtain ⟨t, ht, hcount⟩ := lastQuote_match_count _ _ _ _ hm
      have ht' := (List.cons.inj ht).2
      rw [← ht'] at hcount
      simp [List.count_cons, List.count_append] at hcount
      omega
    | none => exact ih

theorem starLoop_greedy (cls : Char → Bool) (g : List Char → List Char) (bad : Char)
    (hbad : cls bad = false) (k : List Char → Option (List Char))
    (hk : ∀ t, k t = if bad ∈ t then none else some (g t)) (s : List Char) :
    starLoop cls k s = if bad ∈ s then none else some (g (s.dropWhile cls)) := by
  induction s with
  | nil => simp [starLoop, hk]
  | cons c cs ih =>
    unfold starLoop
    by_cases hc : cls c = true
    · have hne : bad ≠ c := fun h => by rw [h, hc] at hbad; cases hbad
      rw [if_pos hc, ih, List.dropWhile_cons_of_pos hc, hk]
      by_cases hm : bad ∈ cs
      · simp [hm]
      · simp [hm, hne]
    · rw [if_neg hc, List.dropWhile_cons_of_neg hc, hk]

theorem all_notAt_iff (l : List Char) : (∀ x ∈ l, notAt x = true) ↔ '@' ∉ l := by
  constructor
  · intro h hm
    have := h _ hm
    simp [notAt] at this
  · intro h x hx
    simp only [notAt, bne_iff_ne, ne_eq]
    intro hxq
    exact h (hxq ▸ hx)

theorem wordChar_at : wordChar '@' = false := by decide

theorem ne_at_of_wordChar (c : Char) (h : wordChar c = true) : c ≠ '@' := by
  intro hc
  rw [hc, wordChar_at] at h
  cases h

theorem matchPieces_crdbKey (s o c : List Char) :
    matchPieces reCRDBKeyExtractor s o c =
      match s with
      | [] => none
      | x :: xs =>
        if wordChar x then
          match xs.dropWhile wordChar with
          | [] => none
          | y :: ys =>
            if y = '@' then
              match ys with
              | [] => none
              | z :: zs =>
                if wordChar z then
                  if '@' ∈ zs then none
                  else some ((x :: xs).take ((x :: xs).length - (zs.dropWhile wordChar).length))
                else none
            else none
        else none := by
  cases s with
  | nil => rfl
  | cons x xs =>
    simp only [reCRDBKeyExtractor, matchPieces]
    split
    · rw [starLoop_skip]
      · cases hd : List.dropWhile wordChar xs with
        | nil => rfl
        | cons y ys =>
          simp only [matchPieces]
          split
          · cases ys with
            | nil => rfl
            | cons z zs =>
              dsimp only
              by_cases hz : wordChar z = true
              · rw [if_pos hz, if_pos hz]
                rw [starLoop_greedy wordChar
                  (fun t => (x :: xs).take ((x :: xs).length - t.length)) '@' wordChar_at]
                intro t
                show starLoop notAt _ t = _
                rw [starLoop_skip]
                · by_cases hm : '@' ∈ t
                  · have : List.dropWhile notAt t ≠ [] := fun h =>
                      (all_notAt_iff t).1 (List.dropWhile_eq_nil_iff.1 h) hm
                    rw [if_pos hm]
                    cases hd2 : List.dropWhile notAt t with
                    | nil => exact absurd hd2 this
                    | cons a b => rfl
                  · have : List.dropWhile notAt t = [] :=
                      List.dropWhile_eq_nil_iff.2 ((all_notAt_iff t).2 hm)
                    rw [if_neg hm, this]
                · intro a b _
                  rfl
              · rw [if_neg hz, if_neg hz]
          · rfl
      · intro a b ha
        simp only [matchPieces]
        simp [ne_at_of_wordChar a ha]
    · rfl

theorem take_length_sub_append (a b : List Char) :
    (a ++ b).take ((a ++ b).length - b.length) = a := by
  have h1 : (a ++ b).length - b.length = a.length := by simp
  rw [h1, List.take_left']
  rfl

theorem split_last_unique (x : Char) (a : List Char) :
    ∀ (a' b b' : List Char), a ++ x :: b = a' ++ x :: b' → x ∉ b → x ∉ b' →
      a = a' ∧ b = b' := by
  induction a with
  | nil =>
    intro a' b b' h hb hb'
    cases a' with
    | nil => exact ⟨rfl, (List.cons.inj h).2⟩
    | cons y a'' =>
      exfalso
      have h2 := (List.cons.inj h).2
      exact hb (by rw [h2]; simp)
  | cons c a ih =>
    intro a' b b' h hb hb'
    cases a' with
    | nil =>
      exfalso
      have h2 := (List.cons.inj h).2
      exact hb' (by rw [← h2]; simp)
    | cons y a'' =>
      obtain ⟨h1, h2⟩ := List.cons.inj h
      obtain ⟨h3, h4⟩ := ih a'' b b' h2 hb hb'
      exact ⟨by rw [h1, h3], h4⟩

theorem crdbKey_match_iff (s o c cap : List Char) :
    matchPieces reCRDBKeyExtractor s o c = some cap ↔
      ∃ A B, s = A ++ '@' :: B ∧ '@' ∉ B ∧ A ≠ [] ∧ (∀ x ∈ A, wordChar x = true) ∧
        B.takeWhile wordChar ≠ [] ∧ cap = A ++ '@' :: B.takeWhile wordChar := by
  rw [matchPieces_crdbKey]
  constructor
  · intro h
    cases s with
    | nil => simp at h
    | cons x xs =>
      dsimp only at h
      by_cases hx : wordChar x = true
      · rw [if_pos hx] at h
        cases hd : List.dropWhile wordChar xs with
        | nil => rw [hd] at h; simp at h
        | cons y ys =>
          rw [hd] at h
          dsimp only at h
          obtain ⟨tw, hxs, htw, _⟩ := split_at_dropWhile wordChar xs y ys hd
          by_cases hy : y = '@'
          · rw [if_pos hy] at h
            subst hy
            cases ys with
            | nil => simp at h
            | cons z zs =>
              dsimp only at h
              by_cases hz : wordChar z = true
              · rw [if_pos hz] at h
                by_cases hm : '@' ∈ zs
                · rw [if_pos hm] at h; simp at h
                · rw [if_neg hm] at h
                  have hcap := Option.some.inj h
                  refine ⟨x :: tw, z :: zs, by rw [hxs]; rfl, ?_, by simp, ?_, ?_, ?_⟩
                  · intro hmem
                    rcases List.mem_cons.1 hmem with h1 | h1
                    · exact ne_at_of_wordChar z hz h1.symm
                    · exact hm h1
                  · intro a ha
                    rcases List.mem_cons.1 ha with h1 | h1
                    · rw [h1]; exact hx
                    · exact htw a h1
                  · rw [List.takeWhile_cons_of_pos hz]; simp
                  · rw [← hcap, List.takeWhile_cons_of_pos hz]
                    have hs : x :: xs = ((x :: tw) ++ '@' :: z :: zs.takeWhile wordChar)
                        ++ zs.dropWhile wordChar := by
                      rw [hxs]
                      simp
                    rw [hs, take_length_sub_append]
              · rw [if_neg hz] at h; simp at h
          · rw [if_neg hy] at h; simp at h
      · rw [if_neg hx] at h; simp at h
  · rintro ⟨A, B, rfl, hB, hA, hword, htake, rfl⟩
    cases A with
    | nil => exact absurd rfl hA
    | cons x A =>
      have hx : wordChar x = true := hword x (List.mem_cons_self x A)
      have hd := dropWhile_append_stop wordChar A '@' B
        (fun a ha => hword a (List.mem_cons_of_mem x ha)) wordChar_at
      cases B with
      | nil => simp at htake
      | cons z zs =>
        have hz : wordChar z = true := by
          by_contra hz
          exact htake (List.takeWhile_cons_of_neg hz)
        have hm : '@' ∉ zs := fun h => hB (List.mem_cons_of_mem z h)
        simp only [List.cons_append, hd, if_pos hx, if_true, if_pos hz, if_neg hm]
        rw [List.takeWhile_cons_of_pos hz]
        have hs : x :: (A ++ '@' :: z :: zs) = ((x :: A) ++ '@' :: z :: zs.takeWhile wordChar)
            ++ zs.dropWhile wordChar := by
          simp
        rw [hs, take_length_sub_append]
        simp

theorem search_crdbKey_no_at (t : List Char) (h : '@' ∉ t) :
    search reCRDBKeyExtractor t = none := by
  induction t with
  | nil => rfl
  | cons c cs ih =>
    unfold search
    cases hm : matchPieces reCRDBKeyExtractor (c :: cs) (c :: cs) [] with
    | some r =>
      obtain ⟨A, B, hs, _⟩ := (crdbKey_match_iff _ _ _ _).1 hm
      exact absurd (by rw [hs]; simp) h
    | none => exact ih (fun hc => h (List.mem_cons_of_mem c hc))

/-- At a start from which word characters run up to the last `@`, the
pattern matches exactly when word characters follow the `@`. -/
theorem crdbKey_match_at_run (w1 B : List Char) (c : Char)
    (hw1 : ∀ x ∈ c :: w1, wordChar x = true) (hB : '@' ∉ B) :
    matchPieces reCRDBKeyExtractor (c :: w1 ++ '@' :: B) (c :: w1 ++ '@' :: B) [] =
      if B.takeWhile wordChar ≠ [] then some (c :: w1 ++ '@' :: B.takeWhile wordChar)
      else none := by
  by_cases ht : B.takeWhile wordChar ≠ []
  · rw [if_pos ht]
    exact (crdbKey_match_iff _ _ _ _).2 ⟨c :: w1, B, rfl, hB, by simp, hw1, ht, rfl⟩
  · rw [if_neg ht]
    cases hm : matchPieces reCRDBKeyExtractor (c :: w1 ++ '@' :: B) (c :: w1 ++ '@' :: B) [] with
    | none => rfl
    | some r =>
      exfalso
      obtain ⟨A, B', hs, hB', _, _, htake, _⟩ := (crdbKey_match_iff _ _ _ _).1 hm
      obtain ⟨_, hb⟩ := split_last_unique '@' (c :: w1) A B B' hs hB hB'
      rw [← hb] at htake
      exact ht htake

theorem search_cons_of_some (p : List Piece) (c : Char) (cs r : List Char)
    (h : matchPieces p (c :: cs) (c :: cs) [] = some r) : search p (c :: cs) = some r := by
  rw [search, h]

theorem search_cons_of_none (p : List Piece) (c : Char) (cs : List Char)
    (h : matchPieces p (c :: cs) (c :: cs) [] = none) : search p (c :: cs) = search p cs := by
  rw [search, h]

theorem search_crdbKey_run (w1 B : List Char) (hw1 : ∀ x ∈ w1, wordChar x = true)
    (hB : '@' ∉ B) :
    search reCRDBKeyExtractor (w1 ++ '@' :: B) =
      if w1 ≠ [] ∧ B.takeWhile wordChar ≠ [] then some (w1 ++ '@' :: B.takeWhile wordChar)
      else none := by
  induction w1 with
  | nil =>
    simp only [List.nil_append, ne_eq, not_true_eq_false, false_and, if_false]
    have : matchPieces reCRDBKeyExtractor ('@' :: B) ('@' :: B) [] = none := by
      rw [matchPieces_crdbKey]
      simp [wordChar_at]
    rw [search_cons_of_none _ _ _ this]
    exact search_crdbKey_no_at B hB
  | cons c w1 ih =>
    have hrun := crdbKey_match_at_run w1 B c hw1 hB
    have ih' := ih (fun x hx => hw1 x (List.mem_cons_of_mem c hx))
    by_cases ht : B.takeWhile wordChar ≠ []
    · rw [if_pos ht] at hrun
      rw [if_pos ⟨by simp, ht⟩]
      exact search_cons_of_some _ _ _ _ hrun
    · rw [if_neg ht] at hrun
      rw [if_neg (fun h => ht h.2)]
      have hrun' : matchPieces reCRDBKeyExtractor (c :: (w1 ++ '@' :: B))
          (c :: (w1 ++ '@' :: B)) [] = none := hrun
      rw [List.cons_append, search_cons_of_none _ _ _ hrun', ih', if_neg (fun h => ht h.2)]

theorem search_crdbKey_skip (pre w1 B : List Char)
    (hlast : ∀ d, pre.getLast? = some d → wordChar d = false)
    (hB : '@' ∉ B) :
    search reCRDBKeyExtractor (pre ++ (w1 ++ '@' :: B))
      = search reCRDBKeyExtractor (w1 ++ '@' :: B) := by
  induction pre with
  | nil => rfl
  | cons c pre ih =>
    have hnone : matchPieces reCRDBKeyExtractor (c :: pre ++ (w1 ++ '@' :: B))
        (c :: pre ++ (w1 ++ '@' :: B)) [] = none := by
      cases hm : matchPieces reCRDBKeyExtractor (c :: pre ++ (w1 ++ '@' :: B))
          (c :: pre ++ (w1 ++ '@' :: B)) [] with
      | none => rfl
      | some r =>
        exfalso
        obtain ⟨A, B', hs, hB', _, hword, _, _⟩ := (crdbKey_match_iff _ _ _ _).1 hm
        have hs' : (c :: pre ++ w1) ++ '@' :: B = A ++ '@' :: B' := by
          rw [← hs]; simp
        obtain ⟨ha, _⟩ := split_last_unique '@' (c :: pre ++ w1) A B B' hs' hB hB'
        obtain ⟨d, hd⟩ : ∃ d, (c :: pre).getLast? = some d :=
          ⟨_, List.getLast?_eq_getLast (c :: pre) (by simp)⟩
        have hmem : d ∈ A := by
          rw [← ha]
          exact List.mem_append_left _ (List.mem_of_getLast?_eq_some hd)
        have := hword d hmem
        rw [hlast d hd] at this
        cases this
    have hnone' : matchPieces reCRDBKeyExtractor (c :: (pre ++ (w1 ++ '@' :: B)))
        (c :: (pre ++ (w1 ++ '@' :: B))) [] = none := hnone
    rw [List.cons_append, search_cons_of_none _ _ _ hnone']
    apply ih
    intro d hd
    cases pre with
    | nil => simp at hd
    | cons p pre' => exact hlast d (by rw [List.getLast?_cons_cons]; exact hd)

theorem takeWhile_run (p : Char → Bool) (w2 post : List Char)
    (hw2 : ∀ x ∈ w2, p x = true) (hpost : ∀ d, post.head? = some d → p d = false) :
    (w2 ++ post).takeWhile p = w2 := by
  cases post with
  | nil => rw [List.append_nil]; exact List.takeWhile_eq_self_iff.2 hw2
  | cons d post => exact takeWhile_append_stop p w2 d post hw2 (hpost d rfl)

/-- C17: when `s` is `pre ++ "\"" ++ mid ++ "\"" ++ post` with no double quote in
`mid` and `post`, that is, `mid` is the text strictly between the
second-to-last and the last double quote of `s`, `extractLastQuote(s)` is
`mid`; when `s` has fewer than two double quotes it is the empty string. -/
theorem extractLastQuote_between_last_quotes (s : String) :
    (∀ pre mid post : String, s = pre ++ "\"" ++ mid ++ "\"" ++ post →
      '"' ∉ mid.data → '"' ∉ post.data → extractLastQuote s = mid) ∧
    (s.data.count '"' < 2 → extractLastQuote s = "") := by
  constructor
  · intro pre mid post hs hmid hpost
    have hdata : s.data = pre.data ++ '"' :: (mid.data ++ '"' :: post.data) := by
      rw [hs]
      simp [String.data_append]
    unfold extractLastQuote firstSubmatch
    rw [hdata, search_lastQuote_found pre.data mid.data post.data hmid hpost]
  · intro h
    unfold extractLastQuote firstSubmatch
    rw [search_lastQuote_few s.data h]

/-- C17 on the message of a foreign-key violation: `a_id_fkey`. -/
theorem extractLastQuote_between_last_quotes_witness :
    extractLastQuote
        "insert or update on table \"b\" violates foreign key constraint \"a_id_fkey\""
      = "a_id_fkey" :=
  (extractLastQuote_between_last_quotes
      "insert or update on table \"b\" violates foreign key constraint \"a_id_fkey\"").1
    "insert or update on table \"b\" violates foreign key constraint " "a_id_fkey" ""
    (by decide) (by decide) (by decide)

/-- C18: let the last `@` of `s` be preceded by `pre ++ w1` and followed by
`w2 ++ post`, where `w1` and `w2` are the maximal runs of word characters
next to it (`pre` does not end and `post` does not begin with a word
character); then `extractCRDBKey(s)` is `w1 ++ "@" ++ w2` when both runs are
non-empty and the empty string otherwise; it is the empty string too when `s`
has no `@`. -/
theorem extractCRDBKey_around_last_at (s : String) :
    ('@' ∉ s.data → extractCRDBKey s = "") ∧
    (∀ pre w1 w2 post : String, s = pre ++ w1 ++ "@" ++ w2 ++ post →
      '@' ∉ post.data →
      (∀ x ∈ w1.data, wordChar x = true) →
      (∀ d, pre.data.getLast? = some d → wordChar d = false) →
      (∀ x ∈ w2.data, wordChar x = true) →
      (∀ d, post.data.head? = some d → wordChar d = false) →
      extractCRDBKey s = if w1 ≠ "" ∧ w2 ≠ "" then w1 ++ "@" ++ w2 else "") := by
  constructor
  · intro h
    unfold extractCRDBKey firstSubmatch
    rw [search_crdbKey_no_at s.data h]
  · intro pre w1 w2 post hs hpost hw1 hpre hw2 hhead
    have hdata : s.data = pre.data ++ (w1.data ++ '@' :: (w2.data ++ post.data)) := by
      rw [hs]
      simp [String.data_append]
    have hB : '@' ∉ w2.data ++ post.data := by
      intro hm
      rcases List.mem_append.1 hm with h | h
      · exact ne_at_of_wordChar _ (hw2 _ h) rfl
      · exact hpost h
    have htake := takeWhile_run wordChar w2.data post.data hw2 hhead
    have hne : ∀ t : String, t ≠ "" ↔ t.data ≠ [] := by
      intro t
      rw [ne_eq, ne_eq, String.ext_iff]
    unfold extractCRDBKey firstSubmatch
    rw [hdata, search_crdbKey_skip pre.data w1.data _ hpre hB,
      search_crdbKey_run w1.data _ hw1 hB, htake]
    by_cases hc : w1 ≠ "" ∧ w2 ≠ ""
    · have hc' : w1.data ≠ [] ∧ w2.data ≠ [] := ⟨(hne w1).1 hc.1, (hne w2).1 hc.2⟩
      rw [if_pos hc, if_pos hc']
      apply String.ext
      simp [String.data_append]
    · have hc' : ¬ (w1.data ≠ [] ∧ w2.data ≠ []) := fun h =>
        hc ⟨(hne w1).2 h.1, (hne w2).2 h.2⟩
      rw [if_neg hc, if_neg hc']

/-- C18 on the message of a CockroachDB foreign-key violation: `a@primary`. -/
theorem extractCRDBKey_around_last_at_witness :
    extractCRDBKey
        "foreign key violation: value ['b'] not found in a@primary [id] (txn=e3f9af56-5f73-4899-975c-4bb1de800402)"
      = "a@primary" :=
  (extractCRDBKey_around_last_at
      "foreign key violation: value ['b'] not found in a@primary [id] (txn=e3f9af56-5f73-4899-975c-4bb1de800402)").2
    "foreign key violation: value ['b'] not found in " "a" "primary"
    " [id] (txn=e3f9af56-5f73-4899-975c-4bb1de800402)"
    (by decide) (by decide) (by decide)
    (fun d hd => by
      have h : some ' ' = some d := hd
      rw [← Option.some.inj h]
      decide)
    (by decide)
    (fun d hd => by
      have h : some ' ' = some d := hd
      rw [← Option.some.inj h]
      decide)

end Pgsql
